import Mathlib

/-!
# Verification of the mudns resolver data plane

A shallow embedding of the mudns caching DNS resolver (`src/src/dns.rs`,
`src/src/cache.rs`, `src/src/cache/lru.rs`, `src/src/upstream.rs`,
`src/src/process/rule/forward.rs`) together with proofs about its cache
invariants, TTL policy, staleness handling, LRU behaviour, single-flight
coalescing, and upstream pool failover.

Modelling conventions:
* `u8`/`u16`/`u32` values (response codes, RR kinds, RR classes, TTLs)
  are `Nat`; no arithmetic in the modelled code paths can overflow them.
* `Instant` and `Duration` are whole seconds (`Nat`); `Instant - Instant`
  in Rust saturates at zero, matching `Nat` subtraction.
* Fallible code (Rust `panic!`/`unwrap`/`assert!` on untrusted data)
  returns `Option`; `none` models a panic.
-/

namespace Mudns

/-! ## Order helpers

Rust `Ord::cmp` for the primitive key components, expressed through
`LinearOrder` so that the lexicographic range lemmas are available. -/

def cmpOf {α : Type} [LinearOrder α] (a b : α) : Ordering :=
  if a < b then .lt else if a = b then .eq else .gt

theorem cmpOf_eq_lt {α : Type} [LinearOrder α] {a b : α} :
    cmpOf a b = .lt ↔ a < b := by
  unfold cmpOf
  split
  · simp [*]
  · split <;> simp_all

theorem cmpOf_eq_eq {α : Type} [LinearOrder α] {a b : α} :
    cmpOf a b = .eq ↔ a = b := by
  unfold cmpOf
  split
  · constructor
    · intro h; cases h
    · intro h; subst h; simp_all
  · split <;> simp_all

theorem cmpOf_self {α : Type} [LinearOrder α] (a : α) : cmpOf a a = .eq := by
  simp [cmpOf]

theorem Ordering.then_eq_lt {a b : Ordering} :
    a.then b = .lt ↔ a = .lt ∨ (a = .eq ∧ b = .lt) := by
  cases a <;> simp [Ordering.then]

theorem cmpOf_then_eq_lt {α : Type} [LinearOrder α] {a b : α} {o : Ordering} :
    (cmpOf a b).then o = .lt ↔ a < b ∨ (a = b ∧ o = .lt) := by
  rw [Ordering.then_eq_lt, cmpOf_eq_lt, cmpOf_eq_eq]

theorem Ordering.then_assoc (a b c : Ordering) :
    (a.then b).then c = a.then (b.then c) := by
  cases a <;> simp [Ordering.then]

theorem lex_both_lt {α : Type} [LinearOrder α] {a b : α} {o p : Ordering}
    (h1 : (cmpOf a b).then o = .lt) (h2 : (cmpOf b a).then p = .lt) :
    a = b ∧ o = .lt ∧ p = .lt := by
  rcases cmpOf_then_eq_lt.1 h1 with h | ⟨e, ho⟩
  · rcases cmpOf_then_eq_lt.1 h2 with h' | ⟨e', _⟩
    · exact absurd h' (lt_asymm h)
    · subst e'
      exact absurd h (lt_irrefl _)
  · rcases cmpOf_then_eq_lt.1 h2 with h' | ⟨e', hp⟩
    · subst e
      exact absurd h' (lt_irrefl _)
    · exact ⟨e, ho, hp⟩

theorem char_eq_of_toNat_eq {a b : Char} (h : a.toNat = b.toNat) : a = b :=
  Char.eq_of_val_eq (UInt32.toNat.inj h)

/-- Byte-string lexicographic comparison of character lists (Rust's
derived `Ord` for `String`; the names stored here are ASCII, where
scalar-value order and byte order agree). -/
def charsCmp : List Char → List Char → Ordering
  | [], [] => .eq
  | [], _ :: _ => .lt
  | _ :: _, [] => .gt
  | a :: as, b :: bs => (cmpOf a.toNat b.toNat).then (charsCmp as bs)

/-- Rust `Ord::cmp` for `String` (and so for `Name`). -/
def strCmp (a b : String) : Ordering := charsCmp a.data b.data

theorem charsCmp_self : ∀ x : List Char, charsCmp x x = .eq
  | [] => rfl
  | a :: as => by
    rw [charsCmp, cmpOf_self]
    simpa [Ordering.then] using charsCmp_self as

theorem strCmp_self (a : String) : strCmp a a = .eq := charsCmp_self a.data

theorem chars_lex_both_lt :
    ∀ {x y : List Char} {o p : Ordering},
      (charsCmp x y).then o = .lt → (charsCmp y x).then p = .lt →
      x = y ∧ o = .lt ∧ p = .lt
  | [], [], o, p, h1, h2 => by
    rw [charsCmp] at h1 h2
    simp only [Ordering.then] at h1 h2
    exact ⟨rfl, h1, h2⟩
  | [], _ :: _, o, p, h1, h2 => by
    rw [charsCmp] at h2
    simp [Ordering.then] at h2
  | _ :: _, [], o, p, h1, h2 => by
    rw [charsCmp] at h1
    simp [Ordering.then] at h1
  | a :: as, b :: bs, o, p, h1, h2 => by
    rw [charsCmp, Ordering.then_assoc] at h1 h2
    obtain ⟨hab, h1, h2⟩ := lex_both_lt h1 h2
    obtain ⟨htail, ho, hp⟩ := chars_lex_both_lt h1 h2
    have hc : a = b := char_eq_of_toNat_eq hab
    exact ⟨by rw [hc, htail], ho, hp⟩

theorem str_lex_both_lt {a b : String} {o p : Ordering}
    (h1 : (strCmp a b).then o = .lt) (h2 : (strCmp b a).then p = .lt) :
    a = b ∧ o = .lt ∧ p = .lt := by
  obtain ⟨hdata, ho, hp⟩ := chars_lex_both_lt h1 h2
  cases a
  cases b
  exact ⟨congrArg String.mk hdata, ho, hp⟩

end Mudns

namespace Mudns

/-! ## DNS data model (`src/src/dns.rs`) -/

/-- A canonical lowercase DNS name, compared as a byte string
(`struct Name(String)` with derived `Ord`). The root is the empty string. -/
abbrev Name := String

/-- Modelled from the spec: `Name::parent` is called by
`Forward::lookup_related` but absent from `src/src/dns.rs`; per spec §3 it
strips the leftmost label (the root's parent is the root). -/
def parentChars : List Char → List Char
  | [] => []
  | c :: t => if c = '.' then t else parentChars t

def Name.parent (n : Name) : Name := ⟨parentChars n.data⟩

def RCODE_NO_ERROR : Nat := 0
def RCODE_FORMAT_ERROR : Nat := 1
def RCODE_SERVER_FAILURE : Nat := 2
def RCODE_NX_DOMAIN : Nat := 3

def RRK_A : Nat := 1
def RRK_NS : Nat := 2
def RRK_CNAME : Nat := 5
def RRK_SOA : Nat := 6
def RRK_NULL : Nat := 10
def RRK_PTR : Nat := 12
def RRK_AAAA : Nat := 28

def RRC_IN : Nat := 1

/-- `struct Soa` (`dns.rs`); the four-byte counters are `Nat`. -/
structure Soa where
  primary_name : Name
  responsible_name : Name
  serial : Nat
  refresh_secs : Nat
  retry_secs : Nat
  expire_secs : Nat
  min_ttl_secs : Nat
deriving DecidableEq, Repr

/-- `enum RRData` (`dns.rs`). IP addresses are modelled by their numeric
value, which is all their derived equality and ordering use. -/
inductive RRData where
  | Name (n : Name)
  | Ipv4Addr (a : Nat)
  | Ipv6Addr (a : Nat)
  | Soa (s : Soa)
  | Unknown
deriving DecidableEq, Repr

/-- Modelled from the spec: `RRData::as_name` is called by
`Forward::lookup_related` but absent from `src/src/dns.rs`; it returns the
contained name of the `Name` variant. -/
def RRData.as_name : RRData → Option Mudns.Name
  | .Name n => some n
  | _ => none

/-- Modelled from the spec: `RRData::as_soa` is called by
`Forward::update_cache` but absent from `src/src/dns.rs`; it returns the
contained `Soa` of the `Soa` variant. -/
def RRData.as_soa : RRData → Option Mudns.Soa
  | .Soa s => some s
  | _ => none

/-- `struct ResourceRecord` (`dns.rs`). -/
structure ResourceRecord where
  name : Name
  kind : Nat
  class_ : Nat
  ttl_secs : Nat
  data : RRData
deriving DecidableEq, Repr

/-- `struct Question` (`dns.rs`). -/
structure Question where
  name : Name
  kind : Nat
  class_ : Nat
deriving DecidableEq, Repr

/-- `enum PacketKind` (`dns.rs`). -/
inductive PacketKind where
  | Query
  | Response
deriving DecidableEq, Repr

def OP_QUERY : Nat := 0

/-- `struct Packet` (`dns.rs`). -/
structure Packet where
  id : Nat
  kind : PacketKind
  op_kind : Nat
  authoritative : Bool
  truncated : Bool
  recursion_desired : Bool
  recursion_available : Bool
  response_code : Nat
  question : Question
  answers : List ResourceRecord
  authorities : List ResourceRecord
  additional_rrs : List ResourceRecord
deriving DecidableEq, Repr

/-- `Packet::new` (`dns.rs`). -/
def Packet.new (id : Nat) (kind : PacketKind) (op_kind : Nat) (question : Question) : Packet where
  id := id
  kind := kind
  op_kind := op_kind
  authoritative := false
  truncated := false
  recursion_desired := false
  recursion_available := false
  response_code := RCODE_NO_ERROR
  question := question
  answers := []
  authorities := []
  additional_rrs := []

/-- `Packet::to_response_with_code` (`dns.rs`). -/
def Packet.to_response_with_code (p : Packet) (response_code : Nat) : Packet :=
  { Packet.new p.id .Response p.op_kind p.question with response_code := response_code }

/-- `Packet::to_response` (`dns.rs`). -/
def Packet.to_response (p : Packet) : Packet :=
  p.to_response_with_code RCODE_NO_ERROR

/-- Modelled from the spec: `Packet::resource_records` is called by
`Forward::update_cache` but absent from `src/src/dns.rs`; per spec §4.5 it
yields every RR of the answers, authorities and additional sections. -/
def Packet.resourceRecords (p : Packet) : List ResourceRecord :=
  p.answers ++ p.authorities ++ p.additional_rrs

end Mudns

namespace Mudns

/-! ## LRU range-cache (`src/src/cache/lru.rs`)

`LruCache<K, V>` holds a `BTreeMap<K, V>` and a `linked_hash_set`
recency list. The map is an association list kept in key order (new keys
are placed by `cmp`); the recency list keeps the oldest-touched key at
the front and the most-recently-touched key at the back, matching
`LinkedHashSet` where `insert` appends at the back, `refresh` moves an
element to the back, and `pop_back` removes the back element. -/

structure Lru (K V : Type) where
  map : List (K × V)
  order : List K
  maxLen : Nat
deriving Repr, DecidableEq

def Lru.empty (K V : Type) (maxLen : Nat) : Lru K V :=
  { map := [], order := [], maxLen := maxLen }

/-- `LruCache::touch`: `refresh` moves a present key to the back of the
recency list, otherwise `insert` appends it at the back. -/
def touchOrder {K : Type} [DecidableEq K] (o : List K) (k : K) : List K :=
  if k ∈ o then (o.filter (fun x => x ≠ k)) ++ [k] else o ++ [k]

/-- Placement of a fresh key at its key-ordered position (the sorted
insertion of `BTreeMap::insert` for a key not yet present). -/
def insertOrdered {K V : Type} (cmp : K → K → Ordering) (k : K) (v : V) :
    List (K × V) → List (K × V)
  | [] => [(k, v)]
  | (k', v') :: t =>
    if cmp k k' = .lt then (k, v) :: (k', v') :: t
    else (k', v') :: insertOrdered cmp k v t

/-- `BTreeMap::insert`: replace the value when the key is present,
otherwise place the new entry at its key-ordered position. (On the
duplicate-free association lists a `BTreeMap` can hold, replacing every
occurrence of the key coincides with replacing its single occurrence.) -/
def mapInsert {K V : Type} [DecidableEq K] (cmp : K → K → Ordering) (k : K) (v : V)
    (l : List (K × V)) : List (K × V) :=
  if l.any (fun e => e.1 = k) then l.map (fun e => if e.1 = k then (k, v) else e)
  else insertOrdered cmp k v l

/-- The eviction loop of `LruCache::insert`:
`while map.len() == max_len { let k = order.pop_back(); map.remove(&k); }`.
The fuel bounds the iteration count; each successful removal shrinks the
map, so `map.length + 1` fuel is never exhausted. -/
def evictLoop {K V : Type} [DecidableEq K] : Nat → Lru K V → Lru K V
  | 0, c => c
  | fuel + 1, c =>
    if c.map.length = c.maxLen then
      match c.order.getLast? with
      | some k =>
        evictLoop fuel
          { c with
            map := c.map.filter (fun e => e.1 ≠ k)
            order := c.order.dropLast }
      | none => c
    else c

/-- `LruCache::insert` (`lru.rs` lines 41–48). -/
def lruInsert {K V : Type} [DecidableEq K] (cmp : K → K → Ordering)
    (c : Lru K V) (k : K) (v : V) : Lru K V :=
  let c := evictLoop (c.map.length + 1) c
  let c := { c with order := touchOrder c.order k }
  { c with map := mapInsert cmp k v c.map }

/-- `LruCache::range` over `(Bound::Excluded start, Bound::Excluded stop)`,
the only bounds the cache engine uses: the entries visited, in map order. -/
def lruRangeEntries {K V : Type} (cmp : K → K → Ordering)
    (c : Lru K V) (start stop : K) : List (K × V) :=
  c.map.filter (fun e => cmp start e.1 = .lt ∧ cmp e.1 stop = .lt)

/-- The recency effect of `LruCache::range` with `touch = true`: every
visited key is refreshed to the back of the recency list. -/
def lruRangeTouch {K V : Type} [DecidableEq K] (cmp : K → K → Ordering)
    (c : Lru K V) (start stop : K) : Lru K V :=
  { c with order := (lruRangeEntries cmp c start stop).foldl (fun o e => touchOrder o e.1) c.order }

/-- Modelled from the spec: `LruCache::remove_range` is called by
`Cache::insert` (`cache.rs` line 222) but absent from
`src/src/cache/lru.rs`; per spec §4.1 it removes all entries in the range
from both indices. Bounds are `(Excluded start, Excluded stop)`, the only
form the cache engine uses. -/
def lruRemoveRange {K V : Type} (cmp : K → K → Ordering)
    (c : Lru K V) (start stop : K) : Lru K V :=
  { c with
    map := c.map.filter (fun e => ¬(cmp start e.1 = .lt ∧ cmp e.1 stop = .lt))
    order := c.order.filter (fun k => ¬(cmp start k = .lt ∧ cmp k stop = .lt)) }

end Mudns

namespace Mudns

/-! ## Cache engine (`src/src/cache.rs`) -/

/-- `enum SubKey` (`cache.rs`). -/
inductive SubKey where
  | First
  | Unique
  | RRData (d : Mudns.RRData)
  | Last
deriving DecidableEq, Repr

/-- The variant tag used by the derived ordering of `SubKey`. -/
def SubKey.tag : SubKey → Nat
  | .First => 0
  | .Unique => 1
  | .RRData _ => 2
  | .Last => 3

/-- The variant tag of the ordering of `RRData` values under a
`SubKey::RRData` sub-key. Modelled from the spec (§3): `SubKey` derives
`Ord` but `src/src/dns.rs` carries no `Ord` for `RRData`; the spec orders
`RRData(Ipv4Addr _) < RRData(Ipv6Addr _) < RRData(Name _)` first by
variant tag then by contained value. `Soa` and `Unknown` sort after those;
no claim depends on their relative order. -/
def RRData.tag : RRData → Nat
  | .Ipv4Addr _ => 0
  | .Ipv6Addr _ => 1
  | .Name _ => 2
  | .Soa _ => 3
  | .Unknown => 4

/-- Modelled from the spec: ordering of `RRData` (see `RRData.tag`).
`Soa` payloads never need an order (they are compared only with other
variants in any claim-relevant state), so equal tags compare equal. -/
def RRData.cmp : RRData → RRData → Ordering
  | .Ipv4Addr x, .Ipv4Addr y => cmpOf x y
  | .Ipv6Addr x, .Ipv6Addr y => cmpOf x y
  | .Name x, .Name y => strCmp x y
  | a, b => cmpOf a.tag b.tag

/-- Derived `Ord` of `SubKey`: variant order `First < Unique < RRData < Last`,
`RRData` payloads compared by `RRData.cmp`. -/
def SubKey.cmp : SubKey → SubKey → Ordering
  | .RRData a, .RRData b => RRData.cmp a b
  | a, b => cmpOf a.tag b.tag

/-- `struct Key` (`cache.rs`). -/
structure Key where
  name : Name
  rr_kind : Nat
  rr_class : Nat
  sub : SubKey
deriving DecidableEq, Repr

/-- Derived lexicographic `Ord` of `Key` in field order. -/
def Key.cmp (a b : Key) : Ordering :=
  (strCmp a.name b.name).then
    ((cmpOf a.rr_kind b.rr_kind).then
      ((cmpOf a.rr_class b.rr_class).then (a.sub.cmp b.sub)))

/-- `struct Value` (`cache.rs`). -/
structure Value where
  ts : Nat
  ttl_secs : Nat
  response_code : Nat
  rr_data : Option RRData
  soa : Option Name
deriving DecidableEq, Repr

/-- `enum Item` (`cache.rs`). -/
inductive Item where
  | Negative (response_code : Nat) (soa : Option Name)
  | Positive (rr : ResourceRecord)
deriving DecidableEq, Repr

/-- The construction parameters of `Cache::new`. `Cache::new` asserts
`max_ttl_secs` to be at least each of the three floors. -/
structure CacheConfig where
  max_ttl_secs : Nat
  min_positive_ttl_secs : Nat
  min_negative_transient_ttl_secs : Nat
  min_negative_persistent_ttl_secs : Nat
  max_staleness : Nat
  stale_ttl_secs : Nat
deriving Repr

/-- The assertions of `Cache::new`. -/
def CacheConfig.valid (cfg : CacheConfig) : Prop :=
  cfg.min_positive_ttl_secs ≤ cfg.max_ttl_secs ∧
  cfg.min_negative_transient_ttl_secs ≤ cfg.max_ttl_secs ∧
  cfg.min_negative_persistent_ttl_secs ≤ cfg.max_ttl_secs

/-- The cache state: the guarded `LruCache<Key, Value>`. -/
abbrev CacheState := Lru Key Value

/-- The range scanned by `Cache::get` and swept by `Cache::insert`:
keys strictly between `(name, kind, class, First)` and
`(name, kind, class, Last)`. -/
def Cache.rangeEntries (s : CacheState) (name : Name) (rr_kind rr_class : Nat) :
    List (Key × Value) :=
  lruRangeEntries Key.cmp s ⟨name, rr_kind, rr_class, .First⟩ ⟨name, rr_kind, rr_class, .Last⟩

/-- The filter of `Cache::get` (`cache.rs` lines 102–105):
`include_stale && expires + max_staleness > now || !include_stale && expires > now`. -/
def Cache.includeEntry (cfg : CacheConfig) (now : Nat) (include_stale : Bool) (v : Value) :
    Bool :=
  let expires := v.ts + v.ttl_secs
  (include_stale && decide (expires + cfg.max_staleness > now)) ||
    (!include_stale && decide (expires > now))

/-- `Cache::positive` (`cache.rs` lines 128–143): decrement the TTL by the
elapsed seconds; `checked_sub` underflows exactly when `elapsed > ttl_secs`,
in which case `stale_ttl_secs` is reported. -/
def Cache.positive (cfg : CacheConfig) (now : Nat) (k : Key) (v : Value) (rr_data : RRData) :
    Item :=
  let elapsed_ttl_secs := now - v.ts
  let ttl_secs :=
    if elapsed_ttl_secs ≤ v.ttl_secs then v.ttl_secs - elapsed_ttl_secs
    else cfg.stale_ttl_secs
  .Positive ⟨k.name, k.rr_kind, k.rr_class, ttl_secs, rr_data⟩

/-- The item built for one visited entry of `Cache::get` (lines 106–121).
The source `unwrap`s `rr_data` for a `Unique` positive entry and treats
`First`/`Last` sub-keys as unreachable; those states never arise from
`Cache::insert`, and the fallbacks here (`Unknown` data, a negative item)
are arbitrary. -/
def Cache.itemOfEntry (cfg : CacheConfig) (now : Nat) (k : Key) (v : Value) : Item :=
  match k.sub with
  | .Unique =>
    if v.response_code = RCODE_NO_ERROR then
      Cache.positive cfg now k v (v.rr_data.getD .Unknown)
    else
      .Negative v.response_code v.soa
  | .RRData d => Cache.positive cfg now k v d
  | .First => .Negative v.response_code v.soa
  | .Last => .Negative v.response_code v.soa

/-- The items returned by `Cache::get` (`cache.rs` lines 82–126). -/
def Cache.getItems (cfg : CacheConfig) (s : CacheState) (name : Name)
    (rr_kind rr_class : Nat) (now : Nat) (include_stale : Bool) : List Item :=
  (Cache.rangeEntries s name rr_kind rr_class).filterMap fun e =>
    if Cache.includeEntry cfg now include_stale e.2 then
      some (Cache.itemOfEntry cfg now e.1 e.2)
    else none

/-- `Cache::get` including its recency side effect (the scan passes
`touch = true`). -/
def Cache.get (cfg : CacheConfig) (s : CacheState) (name : Name)
    (rr_kind rr_class : Nat) (now : Nat) (include_stale : Bool) :
    List Item × CacheState :=
  (Cache.getItems cfg s name rr_kind rr_class now include_stale,
   lruRangeTouch Key.cmp s ⟨name, rr_kind, rr_class, .First⟩ ⟨name, rr_kind, rr_class, .Last⟩)

/-- The per-item derivation of `Cache::insert` (`cache.rs` lines 157–186):
the TTL floor, sub-key, stored response code, stored `soa` and stored
`rr_data`. `none` models the `panic!("invalid response_code")` for a
negative item that is neither SERVER_FAILURE nor NX_DOMAIN. -/
def Cache.derive (cfg : CacheConfig) (item : Item) :
    Option (Nat × SubKey × Nat × Option Name × Option RRData) :=
  match item with
  | .Negative rcode soa =>
    if rcode = RCODE_SERVER_FAILURE then
      some (cfg.min_negative_transient_ttl_secs, .Unique, rcode, soa, none)
    else if rcode = RCODE_NX_DOMAIN then
      some (cfg.min_negative_persistent_ttl_secs, .Unique, rcode, soa, none)
    else none
  | .Positive rr =>
    if rr.kind = RRK_CNAME ∨ rr.kind = RRK_PTR ∨ rr.kind = RRK_SOA then
      some (cfg.min_positive_ttl_secs, .Unique, RCODE_NO_ERROR, none, some rr.data)
    else
      some (cfg.min_positive_ttl_secs, .RRData rr.data, RCODE_NO_ERROR, none, none)

/-- Rust `u32::clamp(min_ttl_secs, max_ttl_secs)`; defined for
`lo ≤ hi`, which `Cache::new` asserts. -/
def rustClamp (v lo hi : Nat) : Nat :=
  if v < lo then lo else if v > hi then hi else v

/-- The mutual-exclusion sweep list of `Cache::insert` (lines 201–206). -/
def Cache.removeKinds (rr_kind : Nat) : List Nat :=
  if rr_kind = RRK_CNAME then [RRK_A, RRK_AAAA]
  else if rr_kind = RRK_A then [RRK_CNAME]
  else if rr_kind = RRK_AAAA then [RRK_CNAME]
  else []

/-- The mutual-exclusion sweep of `Cache::insert` (lines 207–223): one
`remove_range` per kind in `remove_kinds`, over the sub-key range of
`(name, kind, rr_class)`. -/
def Cache.sweep (s : CacheState) (name : Name) (rr_class : Nat) (kinds : List Nat) :
    CacheState :=
  kinds.foldl
    (fun s k =>
      lruRemoveRange Key.cmp s ⟨name, k, rr_class, .First⟩ ⟨name, k, rr_class, .Last⟩)
    s

/-- `Cache::insert` (`cache.rs` lines 145–234). `none` models the panic on
an invalid negative response code; a clamped TTL of zero leaves the cache
unchanged; otherwise the mutual-exclusion ranges are removed and the entry
is stored (refreshing its LRU position). -/
def Cache.insert (cfg : CacheConfig) (s : CacheState) (name : Name)
    (rr_kind rr_class ttl_secs now : Nat) (item : Item) : Option CacheState :=
  (Cache.derive cfg item).map fun d =>
    let min_ttl_secs := d.1
    let sub := d.2.1
    let response_code := d.2.2.1
    let soa := d.2.2.2.1
    let rr_data := d.2.2.2.2
    let ttl := rustClamp ttl_secs min_ttl_secs cfg.max_ttl_secs
    if ttl = 0 then s
    else
      lruInsert Key.cmp (Cache.sweep s name rr_class (Cache.removeKinds rr_kind))
        ⟨name, rr_kind, rr_class, sub⟩
        ⟨now, ttl, response_code, rr_data, soa⟩

/-- The arguments of one `Cache::insert` call. -/
structure InsertCall where
  name : Name
  rr_kind : Nat
  rr_class : Nat
  ttl_secs : Nat
  now : Nat
  item : Item

/-- A sequence of `Cache::insert` calls; `none` if any call panics. -/
def Cache.insertSeq (cfg : CacheConfig) (calls : List InsertCall) (s : CacheState) :
    Option CacheState :=
  calls.foldlM
    (fun s c => Cache.insert cfg s c.name c.rr_kind c.rr_class c.ttl_secs c.now c.item) s

end Mudns

namespace Mudns

/-! ## Forwarder (`src/src/process/rule/forward.rs`)

The `Forward` action with a configured cache. `Instant::now()` is passed
in as `now`; the cache state is threaded explicitly through the `Mutex`
accesses of the source. -/

/-- The CNAME-following loop of `Forward::lookup_related` (lines 73–103).
The result flag is `true` when the loop `return`ed on a detected CNAME
cycle (skipping the rest of `lookup_related`) and `false` when it `break`ed.
`none` models the `assert_eq!(cnames.len(), 1)` failure, the
`rr.data.as_name().unwrap()` failure, or fuel exhaustion; one fuel unit is
spent per followed CNAME, so `map.length + 1` fuel is never exhausted (the
loop inserts a fresh name into `seen` each pass and each pass past the
first consumes a distinct cached CNAME entry). -/
def relatedLoop (cfg : CacheConfig) (rr_class now : Nat) :
    Nat → CacheState → List Name → Name → Packet →
    Option (Bool × Packet × Name × List Name × CacheState)
  | 0, _, _, _, _ => none
  | fuel + 1, s, seen, name, r =>
    if name ∈ seen then
      some (true, { r with response_code := RCODE_SERVER_FAILURE }, name, seen, s)
    else
      let seen := seen ++ [name]
      let (cnames, s') := Cache.get cfg s name RRK_CNAME rr_class now false
      match cnames with
      | [] => some (false, r, name, seen, s')
      | [item] =>
        match item with
        | .Negative rc _ =>
          some (false,
            if r.response_code = RCODE_NO_ERROR then { r with response_code := rc } else r,
            name, seen, s')
        | .Positive rr => do
          let target ← rr.data.as_name
          relatedLoop cfg rr_class now fuel s' seen target
            { r with answers := r.answers ++ [rr] }
      | _ => none

/-- `Forward::lookup_related` (`forward.rs` lines 59–137). -/
def lookupRelated (cfg : CacheConfig) (s : CacheState) (r : Packet) (now : Nat) :
    Option (Packet × CacheState) :=
  if ¬(r.question.kind = RRK_A ∨ r.question.kind = RRK_AAAA) then some (r, s)
  else if r.answers ≠ [] then some (r, s)
  else do
    let (cycled, r, name, seen, s) ←
      relatedLoop cfg r.question.class_ now (s.map.length + 1) s [] r.question.name r
    if cycled then return (r, s)
    let (has_specific_answer, r, s) :=
      if r.response_code = RCODE_NO_ERROR ∧ seen.length > 1 then
        let (items, s) := Cache.get cfg s name r.question.kind r.question.class_ now false
        let (has, r) := items.foldl
          (fun acc item =>
            match item with
            | .Negative rc _ => (acc.1, { acc.2 with response_code := rc })
            | .Positive rr => (true, { acc.2 with answers := acc.2.answers ++ [rr] }))
          (false, r)
        (has, r, s)
      else (false, r, s)
    if has_specific_answer then return (r, s)
    let pname := name.parent
    let (items, s) := Cache.get cfg s pname RRK_SOA r.question.class_ now false
    let r := items.foldl
      (fun r item =>
        match item with
        | .Negative _ _ => r
        | .Positive rr => { r with authorities := r.authorities ++ [rr] })
      r
    return (r, s)

/-- `Forward::lookup_cache` (`forward.rs` lines 25–57) with a configured
cache. The inner `Option` is the function's result (`None` = true cache
miss); the outer `Option` models panics inside `lookup_related`. -/
def lookupCache (cfg : CacheConfig) (s : CacheState) (query : Packet) (now : Nat) :
    Option (Option Packet × CacheState) := do
  let r := query.to_response
  let (items, s) :=
    Cache.get cfg s query.question.name query.question.kind query.question.class_ now false
  let r := items.foldl
    (fun r item =>
      match item with
      | .Negative rc _ => { r with response_code := rc }
      | .Positive rr => { r with answers := r.answers ++ [rr] })
    r
  let (r, s) ← lookupRelated cfg s r now
  if r.response_code = RCODE_NO_ERROR ∧ r.answers = [] ∧ r.authorities = [] then
    return (none, s)
  return (some r, s)

/-- The negative-entry TTL argument of `Forward::update_cache` (lines
163–169): `soa.map(|rr| min(rr.ttl_secs, rr.data.as_soa().unwrap().min_ttl_secs)).unwrap_or(0)`,
with `none` modelling the `unwrap` panic on a SOA-kind RR without SOA data. -/
def negativeTtlArg (soa : Option ResourceRecord) : Option Nat :=
  match soa with
  | some rr => (rr.data.as_soa).map (fun so => min rr.ttl_secs so.min_ttl_secs)
  | none => some 0

/-- `Forward::update_cache` (`forward.rs` lines 139–178) with a configured
cache. Every RR of the response is inserted as a positive item; for a
SERVER_FAILURE or NX_DOMAIN response a negative entry keyed on the
question follows, whose TTL argument is
`authorities.get(0).filter(kind == SOA && class == question.class)`
mapped through `negativeTtlArg`. -/
def updateCache (cfg : CacheConfig) (s : CacheState) (pkt : Packet) (now : Nat) :
    Option CacheState :=
  (pkt.resourceRecords.foldlM
    (fun s rr => Cache.insert cfg s rr.name rr.kind rr.class_ rr.ttl_secs now (.Positive rr))
    s).bind fun s =>
  if pkt.response_code = RCODE_SERVER_FAILURE ∨ pkt.response_code = RCODE_NX_DOMAIN then
    let soa := pkt.authorities.head?.filter
      (fun rr => rr.kind = RRK_SOA ∧ rr.class_ = pkt.question.class_)
    (negativeTtlArg soa).bind fun ttl_arg =>
    Cache.insert cfg s pkt.question.name pkt.question.kind pkt.question.class_ ttl_arg now
      (.Negative pkt.response_code (soa.map (fun rr => rr.name)))
  else
    some s

/-- The observable steps of `Forward::apply` (`forward.rs` lines 183–223). -/
inductive Ev where
  | returnServfail
  | lookupCacheStep
  | returnCached
  | registerLatch
  | awaitLatch
  | upstreamLookup
  | updateCacheStep
  | removeLatch
  | releaseLatch
  | returnResult
deriving DecidableEq, Repr

/-- The control flow of `Forward::apply` as the sequence of steps it
performs, transcribed branch by branch from `forward.rs` lines 183–223.
`hit1` is whether the first `lookup_cache` returns `Some`; `pending` is
whether the in-flight map already holds a latch for the question (the
caller is a waiter); `hit2` is whether the waiter's post-wakeup
`lookup_cache` returns `Some`; `upstreamSome` is whether
`upstream_pool.lookup` returns a packet. In the waiter path the code binds
`sema = None` (line 202), so the trailing `if let Some(sema)` block (lines
217–220) — map-entry removal and latch release — runs only for a leader. -/
def applyEvents (recursionDesired cacheConfigured hit1 pending hit2 upstreamSome : Bool) :
    List Ev :=
  if recursionDesired = false then [.returnServfail]
  else
    let upTail : List Ev :=
      [.upstreamLookup] ++ (if upstreamSome then [.updateCacheStep] else [])
    if cacheConfigured then
      if hit1 then [.lookupCacheStep, .returnCached]
      else if pending then
        if hit2 then [.lookupCacheStep, .awaitLatch, .lookupCacheStep, .returnCached]
        else [.lookupCacheStep, .awaitLatch, .lookupCacheStep] ++ upTail ++ [.returnResult]
      else
        [.lookupCacheStep, .registerLatch] ++ upTail ++
          [.removeLatch, .releaseLatch, .returnResult]
    else
      upTail ++ [.returnResult]

end Mudns

namespace Mudns

/-! ## Upstream pool and servers (`src/src/upstream.rs`) -/

/-- `err_response` (`upstream.rs` lines 156–160). -/
def errResponse (code : Nat) (question : Question) : Packet :=
  { Packet.new 0 .Response OP_QUERY question with response_code := code }

/-- What the network delivers for one `UpstreamServer::lookup` attempt:
a socket/transport error, elapse of the per-query timeout, a datagram
that fails to decode, or a decoded response packet. -/
inductive NetOutcome where
  | transportErr
  | timeout
  | decodeErr
  | received (p : Packet)
deriving DecidableEq, Repr

/-- The errors of `UpstreamServer::lookup`. -/
inductive LookupError where
  | transport
  | timeout
  | decode
  | idMismatch
deriving DecidableEq, Repr

/-- `UpstreamServer::lookup` (`upstream.rs` lines 116–153) as a function of
the query id it sends and the network outcome: socket errors, the timeout
arm of the `select!`, decode failures and a mismatched response id are
failures; otherwise the decoded packet is returned. -/
def upstreamServerLookup (queryId : Nat) (net : NetOutcome) : Except LookupError Packet :=
  match net with
  | .transportErr => .error .transport
  | .timeout => .error .timeout
  | .decodeErr => .error .decode
  | .received p => if p.id ≠ queryId then .error .idMismatch else .ok p

/-- `UpstreamPool::lookup0` (`upstream.rs` lines 80–96): a server attempt
is usable iff it returns a packet whose response code is NO_ERROR or
NX_DOMAIN. -/
def lookup0 (res : Except LookupError Packet) : Option Packet :=
  match res with
  | .ok r =>
    if r.response_code = RCODE_NO_ERROR ∨ r.response_code = RCODE_NX_DOMAIN then some r
    else none
  | .error _ => none

/-- `UpstreamPool::lookup` (`upstream.rs` lines 30–78) for one caller, so
the version cannot change between the read of the preferred pointer and
the write critical section and the loop runs once. `outcomes.get i` is
what `lookup0` yields for server `i` on this question; the race phase is
abstracted as the first server with a usable response (when all fail —
the case the claims address — the two coincide). Returns the updated
preferred pointer `(idx, version)` and the response. -/
def poolLookup (outcomes : List (Option Packet)) (preferred : Nat × Nat)
    (question : Question) : (Nat × Nat) × Option Packet :=
  if outcomes.isEmpty then
    (preferred, some (errResponse RCODE_SERVER_FAILURE question))
  else
    let idx := preferred.1
    let ver := preferred.2
    match if ver > 0 then outcomes.getD idx none else none with
    | some r => (preferred, some r)
    | none =>
      match (outcomes.enum.filter (fun o => o.2.isSome)).head? with
      | some (i, some r) => ((i, ver + 1), some r)
      | some (_, none) => (preferred, none)
      | none => ((idx, 0), some (errResponse RCODE_SERVER_FAILURE question))

/-- The suspension points actually awaited by `UpstreamServer::lookup`
(`upstream.rs` lines 116–153), in order. Line 118 binds the future
returned by `self.in_flight.acquire()` to `_session` without `.await`ing
it, so no semaphore permit acquisition is ever awaited. -/
inductive ServerSuspend where
  | semaphoreAcquire
  | socketBind
  | socketSend
  | recvOrTimeout
deriving DecidableEq, Repr

/-- The awaited suspension points of `UpstreamServer::lookup`, transcribed
from the `.await` expressions of `upstream.rs` lines 116–153. -/
def upstreamServerLookupAwaits : List ServerSuspend :=
  [.socketBind, .socketSend, .recvOrTimeout]

end Mudns

namespace Mudns

/-! ## Range and map lemmas -/

theorem SubKey.cmp_first_lt {s : SubKey} : SubKey.cmp .First s = .lt ↔ s ≠ .First := by
  cases s <;> simp [SubKey.cmp, SubKey.tag, cmpOf]

theorem SubKey.cmp_lt_last {s : SubKey} : SubKey.cmp s .Last = .lt ↔ s ≠ .Last := by
  cases s <;> simp [SubKey.cmp, SubKey.tag, cmpOf]

theorem key_between_iff {n : Name} {kd c : Nat} {k : Key} :
    (Key.cmp ⟨n, kd, c, .First⟩ k = .lt ∧ Key.cmp k ⟨n, kd, c, .Last⟩ = .lt) ↔
      k.name = n ∧ k.rr_kind = kd ∧ k.rr_class = c ∧ k.sub ≠ .First ∧ k.sub ≠ .Last := by
  obtain ⟨kn, kk, kc, ks⟩ := k
  constructor
  · rintro ⟨h1, h2⟩
    simp only [Key.cmp] at h1 h2
    obtain ⟨e1, h1, h2⟩ := str_lex_both_lt h1 h2
    obtain ⟨e2, h1, h2⟩ := lex_both_lt h1 h2
    obtain ⟨e3, h1, h2⟩ := lex_both_lt h1 h2
    exact ⟨e1.symm, e2.symm, e3.symm, SubKey.cmp_first_lt.1 h1, SubKey.cmp_lt_last.1 h2⟩
  · rintro ⟨rfl, rfl, rfl, hf, hl⟩
    simp only [Key.cmp, cmpOf_self, strCmp_self]
    constructor
    · simpa [Ordering.then] using SubKey.cmp_first_lt.2 hf
    · simpa [Ordering.then] using SubKey.cmp_lt_last.2 hl

theorem mem_insertOrdered {K V : Type} {cmp : K → K → Ordering} {k : K} {v : V}
    {l : List (K × V)} {e : K × V} :
    e ∈ insertOrdered cmp k v l ↔ e = (k, v) ∨ e ∈ l := by
  induction l with
  | nil => simp [insertOrdered]
  | cons hd t ih =>
    obtain ⟨k', v'⟩ := hd
    rw [insertOrdered]
    split
    · simp
    · simp only [List.mem_cons, ih]
      tauto

theorem mem_mapInsert {K V : Type} [DecidableEq K] {cmp : K → K → Ordering} {k : K} {v : V}
    {l : List (K × V)} {a : K} {b : V} :
    (a, b) ∈ mapInsert cmp k v l ↔ (a = k ∧ b = v) ∨ ((a, b) ∈ l ∧ a ≠ k) := by
  unfold mapInsert
  split
  case isTrue h =>
    simp only [List.any_eq_true, decide_eq_true_eq] at h
    constructor
    · intro hm
      rw [List.mem_map] at hm
      obtain ⟨e, he, hfe⟩ := hm
      by_cases hek : e.1 = k
      · rw [if_pos hek] at hfe
        injection hfe with h1 h2
        exact Or.inl ⟨h1.symm, h2.symm⟩
      · rw [if_neg hek] at hfe
        right
        refine ⟨hfe ▸ he, ?_⟩
        rw [show a = e.1 from by rw [hfe]]
        exact hek
    · rintro (⟨rfl, rfl⟩ | ⟨hm, hne⟩)
      · obtain ⟨e, he, hek⟩ := h
        rw [List.mem_map]
        exact ⟨e, he, by rw [if_pos hek]⟩
      · rw [List.mem_map]
        exact ⟨(a, b), hm, by rw [if_neg hne]⟩
  case isFalse h =>
    simp only [List.any_eq_true, decide_eq_true_eq, not_exists, not_and] at h
    rw [mem_insertOrdered]
    constructor
    · rintro (he | hm)
      · injection he with h1 h2
        exact Or.inl ⟨h1, h2⟩
      · exact Or.inr ⟨hm, fun hak => h _ hm hak⟩
    · rintro (⟨rfl, rfl⟩ | ⟨hm, _⟩)
      · left; rfl
      · right; exact hm

/-- `BTreeMap::get`. -/
def mapLookup {K V : Type} [DecidableEq K] (l : List (K × V)) (k : K) : Option V :=
  (l.find? (fun e => e.1 = k)).map (fun e => e.2)

theorem mapLookup_cons_of_ne {K V : Type} [DecidableEq K] {hd : K × V} {t : List (K × V)}
    {k : K} (h : hd.1 ≠ k) : mapLookup (hd :: t) k = mapLookup t k := by
  rw [mapLookup, mapLookup, List.find?_cons_of_neg]
  simpa using h

theorem mapLookup_cons_self {K V : Type} [DecidableEq K] {hd : K × V} {t : List (K × V)}
    {k : K} (h : hd.1 = k) : mapLookup (hd :: t) k = some hd.2 := by
  rw [mapLookup, List.find?_cons_of_pos]
  · rfl
  · simpa using h

theorem mapLookup_replace_self {K V : Type} [DecidableEq K] {k : K} {v : V}
    {l : List (K × V)} (h : l.any (fun e => e.1 = k) = true) :
    mapLookup (l.map (fun e => if e.1 = k then (k, v) else e)) k = some v := by
  induction l with
  | nil => simp at h
  | cons hd t ih =>
    by_cases hk : hd.1 = k
    · rw [List.map_cons, if_pos hk, mapLookup_cons_self rfl]
    · rw [List.any_cons] at h
      have ht : t.any (fun e => e.1 = k) = true := by
        rcases Bool.or_eq_true_iff.1 h with h' | h'
        · exact absurd (of_decide_eq_true h') hk
        · exact h'
      rw [List.map_cons, if_neg hk, mapLookup_cons_of_ne hk]
      exact ih ht

theorem mapLookup_insertOrdered_self {K V : Type} [DecidableEq K] {cmp : K → K → Ordering}
    {k : K} {v : V} {l : List (K × V)} (h : l.any (fun e => e.1 = k) = false) :
    mapLookup (insertOrdered cmp k v l) k = some v := by
  induction l with
  | nil => rw [insertOrdered, mapLookup_cons_self rfl]
  | cons hd t ih =>
    obtain ⟨k', v'⟩ := hd
    rw [List.any_cons, Bool.or_eq_false_iff] at h
    have hk : ¬(k', v').1 = k := by simpa using h.1
    have ht : t.any (fun e => e.1 = k) = false := h.2
    rw [insertOrdered]
    split
    · rw [mapLookup_cons_self rfl]
    · rw [mapLookup_cons_of_ne hk]
      exact ih ht

theorem mapLookup_mapInsert_self {K V : Type} [DecidableEq K] {cmp : K → K → Ordering}
    {k : K} {v : V} {l : List (K × V)} :
    mapLookup (mapInsert cmp k v l) k = some v := by
  unfold mapInsert
  split
  case isTrue h => exact mapLookup_replace_self h
  case isFalse h => exact mapLookup_insertOrdered_self (Bool.not_eq_true _ ▸ h)

theorem mem_of_mem_evictLoop {K V : Type} [DecidableEq K] :
    ∀ (fuel : Nat) (c : Lru K V) (e : K × V), e ∈ (evictLoop fuel c).map → e ∈ c.map
  | 0, _, _, h => h
  | fuel + 1, c, e, h => by
    unfold evictLoop at h
    by_cases hlen : c.map.length = c.maxLen
    · rw [if_pos hlen] at h
      cases hgl : c.order.getLast? with
      | none => rw [hgl] at h; exact h
      | some k =>
        rw [hgl] at h
        exact List.mem_of_mem_filter (mem_of_mem_evictLoop fuel _ e h)
    · rwa [if_neg hlen] at h

theorem mem_lruInsert {K V : Type} [DecidableEq K] {cmp : K → K → Ordering}
    {c : Lru K V} {k : K} {v : V} {a : K} {b : V} :
    (a, b) ∈ (lruInsert cmp c k v).map ↔
      (a = k ∧ b = v) ∨ ((a, b) ∈ (evictLoop (c.map.length + 1) c).map ∧ a ≠ k) := by
  rw [lruInsert]
  exact mem_mapInsert

theorem mem_lruInsert_elim {K V : Type} [DecidableEq K] {cmp : K → K → Ordering}
    {c : Lru K V} {k : K} {v : V} {a : K} {b : V}
    (h : (a, b) ∈ (lruInsert cmp c k v).map) :
    (a = k ∧ b = v) ∨ ((a, b) ∈ c.map ∧ a ≠ k) := by
  rcases mem_lruInsert.1 h with h' | ⟨h', hne⟩
  · exact Or.inl h'
  · exact Or.inr ⟨mem_of_mem_evictLoop _ _ _ h', hne⟩

theorem mapLookup_lruInsert_self {K V : Type} [DecidableEq K] {cmp : K → K → Ordering}
    {c : Lru K V} {k : K} {v : V} :
    mapLookup (lruInsert cmp c k v).map k = some v := by
  rw [lruInsert]
  exact mapLookup_mapInsert_self

end Mudns

namespace Mudns

/-! ## Cache engine lemmas -/

theorem mem_rangeEntries {s : CacheState} {n : Name} {kd c : Nat} {e : Key × Value} :
    e ∈ Cache.rangeEntries s n kd c ↔
      e ∈ s.map ∧ e.1.name = n ∧ e.1.rr_kind = kd ∧ e.1.rr_class = c ∧
        e.1.sub ≠ .First ∧ e.1.sub ≠ .Last := by
  rw [Cache.rangeEntries, lruRangeEntries, List.mem_filter]
  simp only [decide_eq_true_eq]
  rw [key_between_iff]

theorem mem_removeRangeOne {s : CacheState} {n : Name} {kd c : Nat} {e : Key × Value} :
    e ∈ (lruRemoveRange Key.cmp s ⟨n, kd, c, .First⟩ ⟨n, kd, c, .Last⟩).map ↔
      e ∈ s.map ∧ ¬(e.1.name = n ∧ e.1.rr_kind = kd ∧ e.1.rr_class = c ∧
        e.1.sub ≠ .First ∧ e.1.sub ≠ .Last) := by
  rw [lruRemoveRange]
  simp only [List.mem_filter, decide_eq_true_eq]
  rw [key_between_iff]

theorem mem_sweep {kinds : List Nat} {s : CacheState} {n : Name} {c : Nat} {e : Key × Value} :
    e ∈ (Cache.sweep s n c kinds).map ↔
      e ∈ s.map ∧ ¬(e.1.name = n ∧ e.1.rr_class = c ∧ e.1.rr_kind ∈ kinds ∧
        e.1.sub ≠ .First ∧ e.1.sub ≠ .Last) := by
  induction kinds generalizing s with
  | nil => simp [Cache.sweep]
  | cons kd t ih =>
    have hstep : Cache.sweep s n c (kd :: t) =
        Cache.sweep (lruRemoveRange Key.cmp s ⟨n, kd, c, .First⟩ ⟨n, kd, c, .Last⟩) n c t :=
      rfl
    rw [hstep, ih, mem_removeRangeOne, List.mem_cons]
    tauto

theorem derive_sub_valid {cfg : CacheConfig} {item : Item}
    {d : Nat × SubKey × Nat × Option Name × Option RRData}
    (h : Cache.derive cfg item = some d) :
    d.2.1 ≠ SubKey.First ∧ d.2.1 ≠ SubKey.Last := by
  cases item with
  | Negative rc soa =>
    rw [Cache.derive] at h
    split at h
    · cases h; simp
    · split at h
      · cases h; simp
      · cases h
  | Positive rr =>
    rw [Cache.derive] at h
    split at h <;> (cases h; simp)

/-- The TTL floor of `Cache::insert` as a function of the stored response
code: SERVER_FAILURE and NX_DOMAIN negatives use the corresponding
negative floors, positives (stored with NO_ERROR) the positive floor. -/
def Cache.floorOf (cfg : CacheConfig) (rc : Nat) : Nat :=
  if rc = RCODE_SERVER_FAILURE then cfg.min_negative_transient_ttl_secs
  else if rc = RCODE_NX_DOMAIN then cfg.min_negative_persistent_ttl_secs
  else cfg.min_positive_ttl_secs

theorem derive_floor_eq {cfg : CacheConfig} {item : Item}
    {d : Nat × SubKey × Nat × Option Name × Option RRData}
    (h : Cache.derive cfg item = some d) :
    d.1 = Cache.floorOf cfg d.2.2.1 := by
  cases item with
  | Negative rc soa =>
    rw [Cache.derive] at h
    split at h
    case isTrue h2 => cases h; simp [Cache.floorOf, h2]
    case isFalse h2 =>
      split at h
      case isTrue h3 => cases h; simp [Cache.floorOf, h3, RCODE_SERVER_FAILURE, RCODE_NX_DOMAIN]
      case isFalse h3 => cases h
  | Positive rr =>
    rw [Cache.derive] at h
    split at h <;>
      (cases h; simp [Cache.floorOf, RCODE_NO_ERROR, RCODE_SERVER_FAILURE, RCODE_NX_DOMAIN])

theorem derive_floor_le_max {cfg : CacheConfig} {item : Item}
    {d : Nat × SubKey × Nat × Option Name × Option RRData}
    (hv : cfg.valid) (h : Cache.derive cfg item = some d) :
    d.1 ≤ cfg.max_ttl_secs := by
  obtain ⟨h1, h2, h3⟩ := hv
  cases item with
  | Negative rc soa =>
    rw [Cache.derive] at h
    split at h
    · cases h; exact h2
    · split at h
      · cases h; exact h3
      · cases h
  | Positive rr =>
    rw [Cache.derive] at h
    split at h <;> (cases h; exact h1)

theorem rustClamp_bounds (v : Nat) {lo hi : Nat} (h : lo ≤ hi) :
    lo ≤ rustClamp v lo hi ∧ rustClamp v lo hi ≤ hi := by
  unfold rustClamp
  split
  · omega
  · split <;> omega

theorem insert_eq_skip {cfg : CacheConfig} {s : CacheState} {n : Name}
    {kd c ttl now : Nat} {item : Item} {d : Nat × SubKey × Nat × Option Name × Option RRData}
    (hd : Cache.derive cfg item = some d)
    (hz : rustClamp ttl d.1 cfg.max_ttl_secs = 0) :
    Cache.insert cfg s n kd c ttl now item = some s := by
  simp only [Cache.insert, hd, Option.map_some']
  rw [if_pos hz]

theorem insert_eq_store {cfg : CacheConfig} {s : CacheState} {n : Name}
    {kd c ttl now : Nat} {item : Item} {d : Nat × SubKey × Nat × Option Name × Option RRData}
    (hd : Cache.derive cfg item = some d)
    (hz : rustClamp ttl d.1 cfg.max_ttl_secs ≠ 0) :
    Cache.insert cfg s n kd c ttl now item =
      some (lruInsert Key.cmp (Cache.sweep s n c (Cache.removeKinds kd))
        ⟨n, kd, c, d.2.1⟩
        ⟨now, rustClamp ttl d.1 cfg.max_ttl_secs, d.2.2.1, d.2.2.2.2, d.2.2.2.1⟩) := by
  simp only [Cache.insert, hd, Option.map_some']
  rw [if_neg hz]

/-- Every `(name, kind, class)` with at least one entry in the map. -/
def hasEntry (s : CacheState) (n : Name) (kd c : Nat) : Prop :=
  ∃ e ∈ s.map, e.1.name = n ∧ e.1.rr_kind = kd ∧ e.1.rr_class = c

/-- Stored sub-keys are never the `First`/`Last` scan sentinels. -/
def WfSub (s : CacheState) : Prop :=
  ∀ e ∈ s.map, e.1.sub ≠ SubKey.First ∧ e.1.sub ≠ SubKey.Last

/-- CNAME/address mutual exclusion: no `(name, class)` holds both a CNAME
entry and an A or AAAA entry. -/
def MutexInv (s : CacheState) : Prop :=
  ∀ n c, ¬(hasEntry s n RRK_CNAME c ∧ (hasEntry s n RRK_A c ∨ hasEntry s n RRK_AAAA c))

instance (s : CacheState) (n : Name) (kd c : Nat) : Decidable (hasEntry s n kd c) :=
  List.decidableBEx _ s.map

instance (s : CacheState) : Decidable (WfSub s) :=
  List.decidableBAll _ s.map

instance (cfg : CacheConfig) : Decidable cfg.valid :=
  inferInstanceAs (Decidable (cfg.min_positive_ttl_secs ≤ cfg.max_ttl_secs ∧
    cfg.min_negative_transient_ttl_secs ≤ cfg.max_ttl_secs ∧
    cfg.min_negative_persistent_ttl_secs ≤ cfg.max_ttl_secs))

theorem wfSub_insert {cfg : CacheConfig} {s s' : CacheState} {n : Name}
    {kd c ttl now : Nat} {item : Item}
    (hw : WfSub s)
    (hi : Cache.insert cfg s n kd c ttl now item = some s') : WfSub s' := by
  cases hd : Cache.derive cfg item with
  | none => rw [Cache.insert, hd] at hi; cases hi
  | some d =>
    by_cases hz : rustClamp ttl d.1 cfg.max_ttl_secs = 0
    · rw [insert_eq_skip hd hz] at hi
      cases hi
      exact hw
    · rw [insert_eq_store hd hz] at hi
      cases hi
      rintro ⟨a, b⟩ he
      rcases mem_lruInsert_elim he with ⟨rfl, rfl⟩ | ⟨he', _⟩
      · exact derive_sub_valid hd
      · exact hw _ (mem_sweep.1 he').1

theorem insert_no_conflict {s : CacheState} {n : Name} {c kd : Nat}
    {sub : SubKey} {val : Value} {n' : Name} {c' kd2 : Nat} {e1 e2 : Key × Value}
    (hw : WfSub s) (hm : MutexInv s)
    (hkd2 : kd2 = RRK_A ∨ kd2 = RRK_AAAA)
    (he1 : e1 ∈ (lruInsert Key.cmp (Cache.sweep s n c (Cache.removeKinds kd))
      ⟨n, kd, c, sub⟩ val).map)
    (h1 : e1.1.name = n' ∧ e1.1.rr_kind = RRK_CNAME ∧ e1.1.rr_class = c')
    (he2 : e2 ∈ (lruInsert Key.cmp (Cache.sweep s n c (Cache.removeKinds kd))
      ⟨n, kd, c, sub⟩ val).map)
    (h2 : e2.1.name = n' ∧ e2.1.rr_kind = kd2 ∧ e2.1.rr_class = c') : False := by
  obtain ⟨hn1, hk1, hc1⟩ := h1
  obtain ⟨hn2, hk2, hc2⟩ := h2
  obtain ⟨a1, b1⟩ := e1
  obtain ⟨a2, b2⟩ := e2
  simp only at hn1 hk1 hc1 hn2 hk2 hc2
  rcases mem_lruInsert_elim he1 with ⟨rfl, rfl⟩ | ⟨he1', hne1⟩
  · -- the freshly inserted key is the CNAME entry: kd = RRK_CNAME
    simp only at hn1 hk1 hc1
    subst hk1 hn1 hc1
    rcases mem_lruInsert_elim he2 with ⟨rfl, _⟩ | ⟨he2', _⟩
    · simp only at hk2
      rcases hkd2 with rfl | rfl <;> simp [RRK_A, RRK_AAAA, RRK_CNAME] at hk2
    · have hs2 := mem_sweep.1 he2'
      have hwf2 := hw _ hs2.1
      refine hs2.2 ⟨hn2, hc2, ?_, hwf2⟩
      rw [hk2]
      rcases hkd2 with rfl | rfl <;>
        simp [Cache.removeKinds, RRK_CNAME]
  · have hs1 := mem_sweep.1 he1'
    rcases mem_lruInsert_elim he2 with ⟨rfl, _⟩ | ⟨he2', _⟩
    · -- the freshly inserted key is the address entry: kd = kd2
      simp only at hn2 hk2 hc2
      subst hk2 hn2 hc2
      have hwf1 := hw _ hs1.1
      refine hs1.2 ⟨hn1, hc1, ?_, hwf1⟩
      rw [hk1]
      rcases hkd2 with h | h <;> rw [h] <;>
        simp [Cache.removeKinds, RRK_A, RRK_AAAA, RRK_CNAME]
    · have hs2 := mem_sweep.1 he2'
      rcases hkd2 with rfl | rfl
      · exact hm n' c' ⟨⟨(a1, b1), hs1.1, hn1, hk1, hc1⟩,
          Or.inl ⟨(a2, b2), hs2.1, hn2, hk2, hc2⟩⟩
      · exact hm n' c' ⟨⟨(a1, b1), hs1.1, hn1, hk1, hc1⟩,
          Or.inr ⟨(a2, b2), hs2.1, hn2, hk2, hc2⟩⟩

theorem mutexInv_insert {cfg : CacheConfig} {s s' : CacheState} {n : Name}
    {kd c ttl now : Nat} {item : Item}
    (hw : WfSub s) (hm : MutexInv s)
    (hi : Cache.insert cfg s n kd c ttl now item = some s') : MutexInv s' := by
  cases hd : Cache.derive cfg item with
  | none => rw [Cache.insert, hd] at hi; cases hi
  | some d =>
    by_cases hz : rustClamp ttl d.1 cfg.max_ttl_secs = 0
    · rw [insert_eq_skip hd hz] at hi
      cases hi
      exact hm
    · rw [insert_eq_store hd hz] at hi
      cases hi
      rintro n' c' ⟨⟨e1, he1, h1⟩, haddr⟩
      rcases haddr with ⟨e2, he2, h2⟩ | ⟨e2, he2, h2⟩
      · exact insert_no_conflict hw hm (Or.inl rfl) he1 h1 he2 h2
      · exact insert_no_conflict hw hm (Or.inr rfl) he1 h1 he2 h2

theorem insertSeq_inv {cfg : CacheConfig} :
    ∀ {calls : List InsertCall} {s s' : CacheState}, WfSub s → MutexInv s →
      Cache.insertSeq cfg calls s = some s' → WfSub s' ∧ MutexInv s' := by
  intro calls
  induction calls with
  | nil =>
    intro s s' hw hm h
    cases h
    exact ⟨hw, hm⟩
  | cons cl t ih =>
    intro s s' hw hm h
    rw [Cache.insertSeq, List.foldlM_cons] at h
    cases hi : Cache.insert cfg s cl.name cl.rr_kind cl.rr_class cl.ttl_secs cl.now cl.item with
    | none => rw [hi] at h; cases h
    | some s1 =>
      rw [hi] at h
      exact ih (wfSub_insert hw hi) (mutexInv_insert hw hm hi) h

theorem insert_clears_swept {cfg : CacheConfig} {s s' : CacheState} {n : Name}
    {kd c ttl now : Nat} {item : Item} {d : Nat × SubKey × Nat × Option Name × Option RRData}
    (hw : WfSub s)
    (hd : Cache.derive cfg item = some d)
    (hz : rustClamp ttl d.1 cfg.max_ttl_secs ≠ 0)
    (hi : Cache.insert cfg s n kd c ttl now item = some s')
    (k' : Nat) (hk' : k' ∈ Cache.removeKinds kd) (hne : k' ≠ kd) :
    ¬hasEntry s' n k' c := by
  rw [insert_eq_store hd hz] at hi
  cases hi
  rintro ⟨⟨a, b⟩, he, hn, hk, hc⟩
  simp only at hn hk hc
  rcases mem_lruInsert_elim he with ⟨rfl, rfl⟩ | ⟨he', _⟩
  · simp only at hk
    exact hne (hk ▸ rfl)
  · have hs := mem_sweep.1 he'
    have hwf := hw _ hs.1
    exact hs.2 ⟨hn, hc, hk ▸ hk', hwf⟩

end Mudns

namespace Mudns

/-! ## TTL clamping invariant -/

/-- Every stored value's TTL is nonzero and lies between its floor
(determined by its stored response code) and `max_ttl_secs`. -/
def TtlInv (cfg : CacheConfig) (s : CacheState) : Prop :=
  ∀ e ∈ s.map, e.2.ttl_secs ≠ 0 ∧ e.2.ttl_secs ≤ cfg.max_ttl_secs ∧
    Cache.floorOf cfg e.2.response_code ≤ e.2.ttl_secs

theorem ttlInv_insert {cfg : CacheConfig} {s s' : CacheState} {n : Name}
    {kd c ttl now : Nat} {item : Item}
    (hv : cfg.valid) (ht : TtlInv cfg s)
    (hi : Cache.insert cfg s n kd c ttl now item = some s') : TtlInv cfg s' := by
  cases hd : Cache.derive cfg item with
  | none => rw [Cache.insert, hd] at hi; cases hi
  | some d =>
    by_cases hz : rustClamp ttl d.1 cfg.max_ttl_secs = 0
    · rw [insert_eq_skip hd hz] at hi
      cases hi
      exact ht
    · rw [insert_eq_store hd hz] at hi
      cases hi
      rintro ⟨a, b⟩ he
      rcases mem_lruInsert_elim he with ⟨rfl, rfl⟩ | ⟨he', _⟩
      · have hbounds := rustClamp_bounds ttl (derive_floor_le_max hv hd)
        refine ⟨hz, hbounds.2, ?_⟩
        have := derive_floor_eq hd
        simpa [← this] using hbounds.1
      · exact ht _ (mem_sweep.1 he').1

theorem insertSeq_ttlInv {cfg : CacheConfig} (hv : cfg.valid) :
    ∀ {calls : List InsertCall} {s s' : CacheState}, TtlInv cfg s →
      Cache.insertSeq cfg calls s = some s' → TtlInv cfg s' := by
  intro calls
  induction calls with
  | nil =>
    intro s s' ht h
    cases h
    exact ht
  | cons cl t ih =>
    intro s s' ht h
    rw [Cache.insertSeq, List.foldlM_cons] at h
    cases hi : Cache.insert cfg s cl.name cl.rr_kind cl.rr_class cl.ttl_secs cl.now cl.item with
    | none => rw [hi] at h; cases h
    | some s1 =>
      rw [hi] at h
      exact ih (ttlInv_insert hv ht hi) h

end Mudns

namespace Mudns

/-! ## Claim theorems: cache invariants -/

/-- **C1.** CNAME/address mutual exclusion: after any sequence of
`Cache::insert` calls from an empty cache, no `(name, class)`
simultaneously holds a CNAME entry and an A or AAAA entry; an insert under
kind CNAME (that actually stores, i.e. whose clamped TTL is nonzero)
removes every A and AAAA entry at its `(name, class)`, and an insert under
kind A or AAAA removes every CNAME entry there. -/
theorem cache_cname_address_mutual_exclusion :
    (∀ (cfg : CacheConfig) (calls : List InsertCall) (cap : Nat) (s' : CacheState),
      Cache.insertSeq cfg calls (Lru.empty Key Value cap) = some s' → MutexInv s') ∧
    (∀ (cfg : CacheConfig) (s s' : CacheState) (n : Name) (c ttl now : Nat) (item : Item)
      (d : Nat × SubKey × Nat × Option Name × Option RRData), WfSub s →
      Cache.derive cfg item = some d →
      rustClamp ttl d.1 cfg.max_ttl_secs ≠ 0 →
      Cache.insert cfg s n RRK_CNAME c ttl now item = some s' →
      ¬hasEntry s' n RRK_A c ∧ ¬hasEntry s' n RRK_AAAA c) ∧
    (∀ (cfg : CacheConfig) (s s' : CacheState) (n : Name) (kd c ttl now : Nat) (item : Item)
      (d : Nat × SubKey × Nat × Option Name × Option RRData), WfSub s →
      (kd = RRK_A ∨ kd = RRK_AAAA) →
      Cache.derive cfg item = some d →
      rustClamp ttl d.1 cfg.max_ttl_secs ≠ 0 →
      Cache.insert cfg s n kd c ttl now item = some s' →
      ¬hasEntry s' n RRK_CNAME c) := by
  refine ⟨?_, ?_, ?_⟩
  · intro cfg calls cap s' h
    have hw : WfSub (Lru.empty Key Value cap) := by
      intro e he
      simp [Lru.empty] at he
    have hm : MutexInv (Lru.empty Key Value cap) := by
      rintro n c ⟨⟨e, he, _⟩, _⟩
      simp [Lru.empty] at he
    exact (insertSeq_inv hw hm h).2
  · intro cfg s s' n c ttl now item d hw hd hz hi
    exact ⟨insert_clears_swept hw hd hz hi RRK_A (by decide) (by decide),
      insert_clears_swept hw hd hz hi RRK_AAAA (by decide) (by decide)⟩
  · intro cfg s s' n kd c ttl now item d hw hkd hd hz hi
    rcases hkd with rfl | rfl
    · exact insert_clears_swept hw hd hz hi RRK_CNAME (by decide) (by decide)
    · exact insert_clears_swept hw hd hz hi RRK_CNAME (by decide) (by decide)

/-- A concrete configuration for the cache witnesses. -/
def cfgA : CacheConfig := ⟨3600, 1, 5, 60, 5, 30⟩

/-- The cache state holding only an A record `a → 9` (the result of the
first witness insert). -/
def stateA : CacheState :=
  ⟨[(⟨"a", RRK_A, 1, .RRData (.Ipv4Addr 9)⟩, ⟨0, 60, 0, none, none⟩)],
   [⟨"a", RRK_A, 1, .RRData (.Ipv4Addr 9)⟩], 8⟩

/-- The cache state after a CNAME insert at `a` clobbered the A record. -/
def stateCname : CacheState :=
  ⟨[(⟨"a", RRK_CNAME, 1, .Unique⟩, ⟨0, 60, 0, some (.Name "t"), none⟩)],
   [⟨"a", RRK_CNAME, 1, .Unique⟩], 8⟩

theorem cache_cname_address_mutual_exclusion_witness :
    Cache.insertSeq cfgA
        [⟨"a", RRK_A, 1, 60, 0, .Positive ⟨"a", RRK_A, 1, 60, .Ipv4Addr 9⟩⟩,
         ⟨"a", RRK_CNAME, 1, 60, 0, .Positive ⟨"a", RRK_CNAME, 1, 60, .Name "t"⟩⟩]
        (Lru.empty Key Value 8) = some stateCname ∧
    MutexInv stateCname ∧
    (¬hasEntry stateCname "a" RRK_A 1 ∧ ¬hasEntry stateCname "a" RRK_AAAA 1) :=
  ⟨by decide,
   cache_cname_address_mutual_exclusion.1 cfgA
     [⟨"a", RRK_A, 1, 60, 0, .Positive ⟨"a", RRK_A, 1, 60, .Ipv4Addr 9⟩⟩,
      ⟨"a", RRK_CNAME, 1, 60, 0, .Positive ⟨"a", RRK_CNAME, 1, 60, .Name "t"⟩⟩]
     8 stateCname (by decide),
   cache_cname_address_mutual_exclusion.2.1 cfgA stateA stateCname "a" 1 60 0
     (.Positive ⟨"a", RRK_CNAME, 1, 60, .Name "t"⟩)
     (1, .Unique, 0, none, some (.Name "t"))
     (by decide) (by decide) (by decide) (by decide)⟩

/-- **C4.** TTL clamping: the floor passed to the clamp is
`min_positive_ttl_secs` for positive items, `min_negative_transient_ttl_secs`
for SERVER_FAILURE negatives and `min_negative_persistent_ttl_secs` for
NX_DOMAIN negatives; an insert whose clamped TTL is zero leaves the cache
unchanged, otherwise the stored value carries exactly the clamped TTL; and
after any insert sequence from empty every stored TTL is nonzero and lies
in `[floor, max_ttl_secs]` for its item's floor. -/
theorem cache_ttl_clamping (cfg : CacheConfig) (hv : cfg.valid) :
    (∀ (rr : ResourceRecord) (d : Nat × SubKey × Nat × Option Name × Option RRData),
      Cache.derive cfg (.Positive rr) = some d → d.1 = cfg.min_positive_ttl_secs) ∧
    (∀ (soa : Option Name) (d : Nat × SubKey × Nat × Option Name × Option RRData),
      Cache.derive cfg (.Negative RCODE_SERVER_FAILURE soa) = some d →
        d.1 = cfg.min_negative_transient_ttl_secs) ∧
    (∀ (soa : Option Name) (d : Nat × SubKey × Nat × Option Name × Option RRData),
      Cache.derive cfg (.Negative RCODE_NX_DOMAIN soa) = some d →
        d.1 = cfg.min_negative_persistent_ttl_secs) ∧
    (∀ (s s' : CacheState) (n : Name) (kd c ttl now : Nat) (item : Item)
      (d : Nat × SubKey × Nat × Option Name × Option RRData),
      Cache.derive cfg item = some d →
      Cache.insert cfg s n kd c ttl now item = some s' →
      (rustClamp ttl d.1 cfg.max_ttl_secs = 0 → s' = s) ∧
      (rustClamp ttl d.1 cfg.max_ttl_secs ≠ 0 →
        mapLookup s'.map ⟨n, kd, c, d.2.1⟩ =
          some ⟨now, rustClamp ttl d.1 cfg.max_ttl_secs, d.2.2.1, d.2.2.2.2, d.2.2.2.1⟩)) ∧
    (∀ (calls : List InsertCall) (cap : Nat) (s' : CacheState),
      Cache.insertSeq cfg calls (Lru.empty Key Value cap) = some s' →
      ∀ e ∈ s'.map, e.2.ttl_secs ≠ 0 ∧ e.2.ttl_secs ≤ cfg.max_ttl_secs ∧
        Cache.floorOf cfg e.2.response_code ≤ e.2.ttl_secs) := by
  refine ⟨?_, ?_, ?_, ?_, ?_⟩
  · intro rr d h
    rw [Cache.derive] at h
    split at h <;> (cases h; rfl)
  · intro soa d h
    rw [Cache.derive] at h
    rw [if_pos rfl] at h
    cases h
    rfl
  · intro soa d h
    rw [Cache.derive] at h
    rw [if_neg (by decide), if_pos rfl] at h
    cases h
    rfl
  · intro s s' n kd c ttl now item d hd hi
    constructor
    · intro hz
      rw [insert_eq_skip hd hz] at hi
      exact (Option.some.inj hi).symm
    · intro hz
      rw [insert_eq_store hd hz] at hi
      cases hi
      exact mapLookup_lruInsert_self
  · intro calls cap s' h
    have ht : TtlInv cfg (Lru.empty Key Value cap) := by
      intro e he
      simp [Lru.empty] at he
    exact insertSeq_ttlInv hv ht h

/-- The cache state holding only the A record `a → 7` with TTL 300 (the
result of the C4 witness insert). -/
def stateA300 : CacheState :=
  ⟨[(⟨"a", RRK_A, 1, .RRData (.Ipv4Addr 7)⟩, ⟨0, 300, 0, none, none⟩)],
   [⟨"a", RRK_A, 1, .RRData (.Ipv4Addr 7)⟩], 8⟩

theorem cache_ttl_clamping_witness :
    CacheConfig.valid cfgA ∧
    ((rustClamp 300 1 3600 = 0 → stateA300 = Lru.empty Key Value 8) ∧
     (rustClamp 300 1 3600 ≠ 0 →
       mapLookup stateA300.map ⟨"a", RRK_A, 1, .RRData (.Ipv4Addr 7)⟩ =
         some ⟨0, 300, 0, none, none⟩)) :=
  ⟨by decide,
   (cache_ttl_clamping cfgA (by decide)).2.2.2.1 (Lru.empty Key Value 8) stateA300
     "a" RRK_A 1 300 0 (.Positive ⟨"a", RRK_A, 1, 300, .Ipv4Addr 7⟩)
     (1, .RRData (.Ipv4Addr 7), 0, none, none) (by decide) (by decide)⟩

end Mudns

namespace Mudns

/-! ## Claim theorems: LRU eviction and serving stale -/

/-- **C2** (code bug): `LruCache::insert` at capacity evicts with
`order.pop_back()`, the back of the recency list — the **most** recently
used key — not the least recently used one. At capacity 2, after the
distinct inserts 1, 2, 3 the cache holds `{1, 3}`: key 2 (the most recent
before the third insert) was evicted while the oldest key 1 survives,
where an LRU cache would hold `{2, 3}`. -/
theorem lru_insert_evicts_most_recently_used :
    (lruInsert cmpOf (lruInsert cmpOf (lruInsert cmpOf
        (Lru.empty Nat Nat 2) 1 10) 2 20) 3 30).map = [(1, 10), (3, 30)] ∧
    (lruInsert cmpOf (lruInsert cmpOf (lruInsert cmpOf
        (Lru.empty Nat Nat 2) 1 10) 2 20) 3 30).order = [1, 3] ∧
    (lruInsert cmpOf (lruInsert cmpOf (Lru.empty Nat Nat 2) 1 10) 2 20).order = [1, 2] := by
  decide

/-- The single-entry cache used by the serving-stale scenarios: an A
record at `a` inserted at time 0 with TTL 10 (the result of the C3
counterexample insert). -/
def stateStale : CacheState :=
  ⟨[(⟨"a", RRK_A, RRC_IN, .RRData (.Ipv4Addr 7)⟩, ⟨0, 10, 0, none, none⟩)],
   [⟨"a", RRK_A, RRC_IN, .RRData (.Ipv4Addr 7)⟩], 8⟩

/-- **C3** (counterexample): at `now = ts + ttl_secs` exactly, the entry
has `elapsed = now - ts = ttl_secs` and is served only because
`include_stale`, yet `checked_sub` does not underflow and the record
reports TTL `0`, not `stale_ttl_secs = 30`. -/
theorem cache_serving_stale_counterexample :
    Cache.insert cfgA (Lru.empty Key Value 8) "a" RRK_A RRC_IN 10 0
        (.Positive ⟨"a", RRK_A, RRC_IN, 10, .Ipv4Addr 7⟩) = some stateStale ∧
    Cache.getItems cfgA stateStale "a" RRK_A RRC_IN 10 false = [] ∧
    Cache.getItems cfgA stateStale "a" RRK_A RRC_IN 10 true =
      [.Positive ⟨"a", RRK_A, RRC_IN, 0, .Ipv4Addr 7⟩] ∧
    cfgA.stale_ttl_secs = 30 ∧ (10 : Nat) - 0 ≥ 10 := by
  decide

/-- **C3** (amended): an entry whose `expires = ts + ttl_secs` satisfies
`expires ≤ now < expires + max_staleness` is returned by `Cache::get` iff
`include_stale`; a positive entry so served reports `stale_ttl_secs` when
`elapsed > ttl_secs` strictly, and `0` at the boundary
`elapsed = ttl_secs`. -/
theorem cache_serving_stale (cfg : CacheConfig) (s : CacheState) (n : Name)
    (kd c now : Nat) (k : Key) (v : Value)
    (hr : Cache.rangeEntries s n kd c = [(k, v)])
    (hexp : v.ts + v.ttl_secs ≤ now)
    (hwin : now < v.ts + v.ttl_secs + cfg.max_staleness) :
    Cache.getItems cfg s n kd c now false = [] ∧
    Cache.getItems cfg s n kd c now true = [Cache.itemOfEntry cfg now k v] ∧
    (∀ d : RRData, k.sub = .RRData d → v.ts + v.ttl_secs < now →
      Cache.itemOfEntry cfg now k v =
        .Positive ⟨k.name, k.rr_kind, k.rr_class, cfg.stale_ttl_secs, d⟩) ∧
    (∀ d : RRData, k.sub = .RRData d → v.ts + v.ttl_secs = now →
      Cache.itemOfEntry cfg now k v =
        .Positive ⟨k.name, k.rr_kind, k.rr_class, 0, d⟩) ∧
    (∀ d : RRData, k.sub = .Unique → v.response_code = RCODE_NO_ERROR →
      v.rr_data = some d → v.ts + v.ttl_secs < now →
      Cache.itemOfEntry cfg now k v =
        .Positive ⟨k.name, k.rr_kind, k.rr_class, cfg.stale_ttl_secs, d⟩) := by
  have hfalse : Cache.includeEntry cfg now false v = false := by
    unfold Cache.includeEntry
    simp only [Bool.false_and, Bool.not_false, Bool.true_and, Bool.false_or,
      decide_eq_false_iff_not]
    omega
  have htrue : Cache.includeEntry cfg now true v = true := by
    unfold Cache.includeEntry
    simp only [Bool.true_and, Bool.not_true, Bool.false_and, Bool.or_false,
      decide_eq_true_eq]
    omega
  refine ⟨?_, ?_, ?_, ?_, ?_⟩
  · rw [Cache.getItems, hr]
    simp [hfalse]
  · rw [Cache.getItems, hr]
    simp [htrue]
  · intro d hsub hlt
    simp only [Cache.itemOfEntry, hsub, Cache.positive]
    rw [if_neg (by omega)]
  · intro d hsub heq
    simp only [Cache.itemOfEntry, hsub, Cache.positive]
    rw [if_pos (by omega)]
    congr 1
    simp only [ResourceRecord.mk.injEq, true_and]
    constructor
    · omega
    · trivial
  · intro d hsub hrc hrrd hlt
    simp only [Cache.itemOfEntry, hsub, hrc, RCODE_NO_ERROR, if_pos, hrrd,
      Option.getD_some, Cache.positive]
    rw [if_neg (by omega)]

theorem cache_serving_stale_witness :
    Cache.getItems cfgA stateStale "a" RRK_A RRC_IN 12 false = [] ∧
    Cache.getItems cfgA stateStale "a" RRK_A RRC_IN 12 true =
      [Cache.itemOfEntry cfgA 12 ⟨"a", RRK_A, RRC_IN, .RRData (.Ipv4Addr 7)⟩
        ⟨0, 10, 0, none, none⟩] ∧
    Cache.itemOfEntry cfgA 12 ⟨"a", RRK_A, RRC_IN, .RRData (.Ipv4Addr 7)⟩
        ⟨0, 10, 0, none, none⟩ =
      .Positive ⟨"a", RRK_A, RRC_IN, cfgA.stale_ttl_secs, .Ipv4Addr 7⟩ :=
  ⟨(cache_serving_stale cfgA stateStale "a" RRK_A RRC_IN 12
      ⟨"a", RRK_A, RRC_IN, .RRData (.Ipv4Addr 7)⟩ ⟨0, 10, 0, none, none⟩
      (by decide) (by decide) (by decide)).1,
   (cache_serving_stale cfgA stateStale "a" RRK_A RRC_IN 12
      ⟨"a", RRK_A, RRC_IN, .RRData (.Ipv4Addr 7)⟩ ⟨0, 10, 0, none, none⟩
      (by decide) (by decide) (by decide)).2.1,
   (cache_serving_stale cfgA stateStale "a" RRK_A RRC_IN 12
      ⟨"a", RRK_A, RRC_IN, .RRData (.Ipv4Addr 7)⟩ ⟨0, 10, 0, none, none⟩
      (by decide) (by decide) (by decide)).2.2.1 (.Ipv4Addr 7) rfl (by decide)⟩

end Mudns

namespace Mudns

/-! ## Claim theorems: negative caching from SOA -/

theorem derive_negative {cfg : CacheConfig} {rc : Nat} {so : Option Name}
    (h : rc = RCODE_SERVER_FAILURE ∨ rc = RCODE_NX_DOMAIN) :
    Cache.derive cfg (.Negative rc so) =
      some (Cache.floorOf cfg rc, .Unique, rc, so, none) := by
  rcases h with rfl | rfl
  · rw [Cache.derive, if_pos rfl, Cache.floorOf, if_pos rfl]
  · rw [Cache.derive, if_neg (by decide), if_pos rfl,
      Cache.floorOf, if_neg (by decide), if_pos rfl]

/-- The first authority RR when it is a SOA of the question's class, as
filtered by `Forward::update_cache` (`forward.rs` lines 160–162). -/
def firstAuthoritySoa (pkt : Packet) : Option ResourceRecord :=
  pkt.authorities.head?.filter
    (fun rr => rr.kind = RRK_SOA ∧ rr.class_ = pkt.question.class_)

theorem updateCache_negative_eq {cfg : CacheConfig} {s s1 : CacheState} {pkt : Packet}
    {now : Nat}
    (hrc : pkt.response_code = RCODE_SERVER_FAILURE ∨ pkt.response_code = RCODE_NX_DOMAIN)
    (hpos : pkt.resourceRecords.foldlM
      (fun s rr => Cache.insert cfg s rr.name rr.kind rr.class_ rr.ttl_secs now (.Positive rr)) s
      = some s1) :
    updateCache cfg s pkt now =
      (negativeTtlArg (firstAuthoritySoa pkt)).bind fun ttl_arg =>
      Cache.insert cfg s1 pkt.question.name pkt.question.kind pkt.question.class_ ttl_arg now
        (.Negative pkt.response_code ((firstAuthoritySoa pkt).map (fun rr => rr.name))) := by
  rw [updateCache, hpos, Option.some_bind, if_pos hrc]
  rfl

/-- **C5** (amended): for a SERVER_FAILURE/NX_DOMAIN response, the negative
entry keyed on the question is inserted with TTL argument
`min(rr.ttl_secs, rr.data.min_ttl_secs)` when `authorities[0]` — not the
first matching SOA anywhere in authorities — is a SOA RR of the question's
class (whose owner name becomes `soa_owner`), and `0` otherwise;
`Cache::insert` then clamps the argument into `[floor, max_ttl_secs]`, so
with no matching SOA at `authorities[0]` the negative entry is stored with
the floor TTL whenever the clamped floor is nonzero, and the insert is
skipped only when the clamp is zero. -/
theorem negative_caching_soa (cfg : CacheConfig) (s s1 : CacheState) (pkt : Packet) (now : Nat)
    (hrc : pkt.response_code = RCODE_SERVER_FAILURE ∨ pkt.response_code = RCODE_NX_DOMAIN)
    (hpos : pkt.resourceRecords.foldlM
      (fun s rr => Cache.insert cfg s rr.name rr.kind rr.class_ rr.ttl_secs now (.Positive rr)) s
      = some s1) :
    (firstAuthoritySoa pkt = none →
      (rustClamp 0 (Cache.floorOf cfg pkt.response_code) cfg.max_ttl_secs = 0 →
        updateCache cfg s pkt now = some s1) ∧
      (rustClamp 0 (Cache.floorOf cfg pkt.response_code) cfg.max_ttl_secs ≠ 0 →
        ∀ s', updateCache cfg s pkt now = some s' →
          mapLookup s'.map ⟨pkt.question.name, pkt.question.kind, pkt.question.class_, .Unique⟩ =
            some ⟨now, rustClamp 0 (Cache.floorOf cfg pkt.response_code) cfg.max_ttl_secs,
              pkt.response_code, none, none⟩)) ∧
    (∀ (rr : ResourceRecord) (so : Soa),
      firstAuthoritySoa pkt = some rr → rr.data.as_soa = some so →
      rustClamp (min rr.ttl_secs so.min_ttl_secs) (Cache.floorOf cfg pkt.response_code)
          cfg.max_ttl_secs ≠ 0 →
      ∀ s', updateCache cfg s pkt now = some s' →
        mapLookup s'.map ⟨pkt.question.name, pkt.question.kind, pkt.question.class_, .Unique⟩ =
          some ⟨now, rustClamp (min rr.ttl_secs so.min_ttl_secs)
              (Cache.floorOf cfg pkt.response_code) cfg.max_ttl_secs,
            pkt.response_code, none, some rr.name⟩) := by
  have hred := updateCache_negative_eq hrc hpos
  constructor
  · intro hsoa
    rw [hsoa] at hred
    simp only [negativeTtlArg, Option.map_none', Option.some_bind] at hred
    constructor
    · intro hz
      rw [hred]
      exact insert_eq_skip (derive_negative hrc) hz
    · intro hz s' hs'
      rw [hred, insert_eq_store (derive_negative hrc) hz] at hs'
      cases hs'
      exact mapLookup_lruInsert_self
  · intro rr so hsoa hso hz s' hs'
    rw [hsoa] at hred
    simp only [negativeTtlArg, hso, Option.map_some', Option.some_bind] at hred
    rw [hred, insert_eq_store (derive_negative hrc) hz] at hs'
    cases hs'
    exact mapLookup_lruInsert_self

/-- The `NS`-then-`SOA` authority section of the C5 counterexample. -/
def rrNS : ResourceRecord := ⟨"com", RRK_NS, RRC_IN, 300, .Unknown⟩

/-- The SOA RR for `com` with `min_ttl_secs = 900` used by the C5
scenarios. -/
def rrSoaCom : ResourceRecord :=
  ⟨"com", RRK_SOA, RRC_IN, 3600, .Soa ⟨"ns.com", "host.com", 1, 2, 3, 4, 900⟩⟩

/-- An NX_DOMAIN response whose authority section starts with a non-SOA
record; the first SOA RR matching the question class is the second
authority entry. -/
def pktNx : Packet :=
  { Packet.new 0 .Response OP_QUERY ⟨"nope.com", RRK_A, RRC_IN⟩ with
    response_code := RCODE_NX_DOMAIN, authorities := [rrNS, rrSoaCom] }

/-- An NX_DOMAIN response whose authority section starts with the SOA. -/
def pktNxSoaFirst : Packet :=
  { Packet.new 0 .Response OP_QUERY ⟨"nope.com", RRK_A, RRC_IN⟩ with
    response_code := RCODE_NX_DOMAIN, authorities := [rrSoaCom, rrNS] }

/-- **C5** (counterexample): `pktNx` carries a matching SOA (owner `com`,
`ttl 3600`, `min_ttl 900`) in its authorities, so the claim requires the
negative entry to be stored with TTL `min(3600, 900) = 900` — but the code
only inspects `authorities[0]`, which is not a SOA, passes TTL `0`, and
`Cache::insert` clamps it up to the negative floor: the stored negative
entry has TTL `60` (= `min_negative_persistent_ttl_secs`), not `900`, and
carries no `soa_owner`; in particular the insert is not skipped. -/
theorem negative_caching_soa_counterexample :
    (updateCache cfgA (Lru.empty Key Value 8) pktNx 0).map
        (fun st => mapLookup st.map ⟨"nope.com", RRK_A, RRC_IN, .Unique⟩) =
      some (some ⟨0, 60, RCODE_NX_DOMAIN, none, none⟩) ∧
    min (3600 : Nat) 900 = 900 ∧ (60 : Nat) ≠ 900 := by
  decide

/-- The cache state after the positive inserts of `pktNx` from empty
(an NS entry and a SOA entry at `com`). -/
def stateNxPositives : CacheState :=
  ⟨[(⟨"com", RRK_NS, RRC_IN, .RRData .Unknown⟩, ⟨0, 300, 0, none, none⟩),
    (⟨"com", RRK_SOA, RRC_IN, .Unique⟩,
      ⟨0, 3600, 0, some (.Soa ⟨"ns.com", "host.com", 1, 2, 3, 4, 900⟩), none⟩)],
   [⟨"com", RRK_NS, RRC_IN, .RRData .Unknown⟩, ⟨"com", RRK_SOA, RRC_IN, .Unique⟩], 8⟩

/-- The cache state after the positive inserts of `pktNxSoaFirst` from
empty (same map, SOA touched first). -/
def stateNxPositivesSoaFirst : CacheState :=
  ⟨[(⟨"com", RRK_NS, RRC_IN, .RRData .Unknown⟩, ⟨0, 300, 0, none, none⟩),
    (⟨"com", RRK_SOA, RRC_IN, .Unique⟩,
      ⟨0, 3600, 0, some (.Soa ⟨"ns.com", "host.com", 1, 2, 3, 4, 900⟩), none⟩)],
   [⟨"com", RRK_SOA, RRC_IN, .Unique⟩, ⟨"com", RRK_NS, RRC_IN, .RRData .Unknown⟩], 8⟩

theorem negative_caching_soa_witness :
    ((rustClamp 0 (Cache.floorOf cfgA pktNx.response_code) cfgA.max_ttl_secs = 0 →
        updateCache cfgA (Lru.empty Key Value 8) pktNx 0 = some stateNxPositives) ∧
     (rustClamp 0 (Cache.floorOf cfgA pktNx.response_code) cfgA.max_ttl_secs ≠ 0 →
        ∀ s', updateCache cfgA (Lru.empty Key Value 8) pktNx 0 = some s' →
          mapLookup s'.map ⟨"nope.com", RRK_A, RRC_IN, .Unique⟩ =
            some ⟨0, rustClamp 0 (Cache.floorOf cfgA pktNx.response_code) cfgA.max_ttl_secs,
              pktNx.response_code, none, none⟩)) ∧
    (rustClamp (min rrSoaCom.ttl_secs 900) (Cache.floorOf cfgA pktNxSoaFirst.response_code)
        cfgA.max_ttl_secs ≠ 0 →
      ∀ s', updateCache cfgA (Lru.empty Key Value 8) pktNxSoaFirst 0 = some s' →
        mapLookup s'.map ⟨"nope.com", RRK_A, RRC_IN, .Unique⟩ =
          some ⟨0, rustClamp (min rrSoaCom.ttl_secs 900)
              (Cache.floorOf cfgA pktNxSoaFirst.response_code) cfgA.max_ttl_secs,
            pktNxSoaFirst.response_code, none, some "com"⟩) :=
  ⟨(negative_caching_soa cfgA (Lru.empty Key Value 8) stateNxPositives pktNx 0
      (by decide) (by decide)).1 (by decide),
   (negative_caching_soa cfgA (Lru.empty Key Value 8) stateNxPositivesSoaFirst pktNxSoaFirst 0
      (by decide) (by decide)).2 rrSoaCom ⟨"ns.com", "host.com", 1, 2, 3, 4, 900⟩
      (by decide) (by decide)⟩

end Mudns

namespace Mudns

/-! ## Claim theorems: upstream pool and servers -/

/-- **C7.** A server attempt is usable iff `UpstreamServer::lookup`
delivers a decoded packet with the sent query id whose response code is
NO_ERROR or NX_DOMAIN; any other response code, transport error, decode
failure, id mismatch or timeout yields nothing. -/
theorem upstream_usable_response (queryId : Nat) (net : NetOutcome) (p : Packet) :
    lookup0 (upstreamServerLookup queryId net) = some p ↔
      net = .received p ∧ p.id = queryId ∧
        (p.response_code = RCODE_NO_ERROR ∨ p.response_code = RCODE_NX_DOMAIN) := by
  cases net with
  | transportErr => simp [upstreamServerLookup, lookup0]
  | timeout => simp [upstreamServerLookup, lookup0]
  | decodeErr => simp [upstreamServerLookup, lookup0]
  | received q =>
    rw [upstreamServerLookup]
    by_cases hid : q.id = queryId
    · rw [if_neg (by simp [hid])]
      rw [lookup0]
      by_cases hrc : q.response_code = RCODE_NO_ERROR ∨ q.response_code = RCODE_NX_DOMAIN
      · rw [if_pos hrc]
        constructor
        · intro h
          cases h
          exact ⟨rfl, hid, hrc⟩
        · rintro ⟨h1, _, _⟩
          cases h1
          rfl
      · rw [if_neg hrc]
        constructor
        · intro h
          cases h
        · rintro ⟨h1, _, hrc'⟩
          cases h1
          exact absurd hrc' hrc
    · rw [if_pos hid]
      constructor
      · intro h
        cases h
      · rintro ⟨h1, h2, _⟩
        cases h1
        exact absurd h2 hid

/-- **C8.** `UpstreamPool::lookup` on an empty server list synthesizes a
SERVER_FAILURE response (pool state untouched); and when the race runs and
every server fails, the preferred version is set to 0 and a synthesized
SERVER_FAILURE response is returned. -/
theorem upstream_pool_all_fail (q : Question) :
    (∀ preferred : Nat × Nat, poolLookup [] preferred q =
      (preferred, some (errResponse RCODE_SERVER_FAILURE q))) ∧
    (∀ (outcomes : List (Option Packet)) (preferred : Nat × Nat),
      outcomes ≠ [] → (∀ o ∈ outcomes, o = none) →
      poolLookup outcomes preferred q =
        ((preferred.1, 0), some (errResponse RCODE_SERVER_FAILURE q))) := by
  have hfil : ∀ (l : List (Option Packet)) (n : Nat), (∀ o ∈ l, o = none) →
      (l.enumFrom n).filter (fun o => o.2.isSome) = [] := by
    intro l
    induction l with
    | nil => intro n _; rfl
    | cons hd t ih =>
      intro n hall
      have hhd : hd = none := hall hd (by simp)
      rw [List.enumFrom, List.filter_cons]
      simp only [hhd, Option.isSome_none]
      exact ih (n + 1) (fun o ho => hall o (by simp [ho]))
  have hgdl : ∀ (l : List (Option Packet)) (i : Nat), (∀ o ∈ l, o = none) →
      l.getD i none = none := by
    intro l
    induction l with
    | nil => intro i _; cases i <;> rfl
    | cons hd t ih =>
      intro i hall
      cases i with
      | zero => simpa using hall hd (by simp)
      | succ j =>
        rw [List.getD_cons_succ]
        exact ih j (fun o ho => hall o (by simp [ho]))
  constructor
  · intro pref
    rfl
  · intro outs pref hne hall
    have hgd : outs.getD pref.1 none = none := hgdl outs pref.1 hall
    have hfil0 : List.filter (fun o => o.2.isSome) outs.enum = [] := hfil outs 0 hall
    simp only [poolLookup]
    rw [if_neg (by simpa [List.isEmpty_iff] using hne)]
    have hifnone : (if pref.2 > 0 then outs.getD pref.1 none else none) = none := by
      split
      · exact hgd
      · rfl
    rw [hifnone, hfil0]
    rfl

/-- The question used by the upstream pool witness. -/
def qW : Question := ⟨"q", RRK_A, RRC_IN⟩

theorem upstream_pool_all_fail_witness :
    poolLookup [] (0, 0) qW = ((0, 0), some (errResponse RCODE_SERVER_FAILURE qW)) ∧
    poolLookup [none, none] (0, 1) qW = ((0, 0), some (errResponse RCODE_SERVER_FAILURE qW)) :=
  ⟨(upstream_pool_all_fail qW).1 (0, 0),
   (upstream_pool_all_fail qW).2 [none, none] (0, 1) (by decide) (by decide)⟩

/-- **C9** (code bug): the only suspension points awaited by
`UpstreamServer::lookup` are the socket bind, the send, and the
receive-or-timeout select; the semaphore acquire future created on line
118 is never awaited, so no in-flight permit is ever taken and the
`max_in_flight` cap is not enforced. -/
theorem upstream_in_flight_not_acquired :
    ServerSuspend.semaphoreAcquire ∉ upstreamServerLookupAwaits ∧
    upstreamServerLookupAwaits = [.socketBind, .socketSend, .recvOrTimeout] := by
  decide

end Mudns

namespace Mudns

/-! ## Claim theorems: single-flight coalescer -/

/-- **C6** (counterexample): a waiter (`pending = true`) that wakes and
still misses the cache (`hit2 = false`) performs its own upstream lookup
but — unlike a leader (`pending = false`), whose trace contains
`registerLatch`, `removeLatch` and `releaseLatch` — it never registers a
latch entry in the in-flight map, never removes one, and never releases a
latch: the `sema` binding is `None` on the waiter path (`forward.rs`
line 202), so the completion block of lines 217–220 is skipped. -/
theorem single_flight_waiter_counterexample :
    Ev.registerLatch ∉ applyEvents true true false true false true ∧
    Ev.removeLatch ∉ applyEvents true true false true false true ∧
    Ev.releaseLatch ∉ applyEvents true true false true false true ∧
    Ev.upstreamLookup ∈ applyEvents true true false true false true ∧
    Ev.registerLatch ∈ applyEvents true true false false false true ∧
    Ev.removeLatch ∈ applyEvents true true false false false true ∧
    Ev.releaseLatch ∈ applyEvents true true false false false true := by
  decide

/-- **C6** (amended): a waiter that re-reads the cache after waking and
still misses falls through to its own `upstream_pool.lookup` (caching a
returned packet), but performs it without registering an in-flight latch
entry of its own, and on completion neither removes a map entry nor
releases a latch. -/
theorem single_flight_waiter_fallthrough (upstreamSome : Bool) :
    applyEvents true true false true false upstreamSome =
      [.lookupCacheStep, .awaitLatch, .lookupCacheStep, .upstreamLookup] ++
        (if upstreamSome then [.updateCacheStep] else []) ++ [.returnResult] ∧
    Ev.registerLatch ∉ applyEvents true true false true false upstreamSome ∧
    Ev.removeLatch ∉ applyEvents true true false true false upstreamSome ∧
    Ev.releaseLatch ∉ applyEvents true true false true false upstreamSome := by
  cases upstreamSome <;> decide

end Mudns

namespace Mudns

/-! ## Claim theorems: answering from the parent's SOA -/

theorem lruRangeTouch_map {K V : Type} [DecidableEq K] (cmp : K → K → Ordering)
    (c : Lru K V) (a b : K) : (lruRangeTouch cmp c a b).map = c.map := rfl

theorem getItems_eq_of_map_eq {cfg : CacheConfig} {s t : CacheState} (h : s.map = t.map)
    (n : Name) (kd c now : Nat) (b : Bool) :
    Cache.getItems cfg s n kd c now b = Cache.getItems cfg t n kd c now b := by
  rw [Cache.getItems, Cache.getItems, Cache.rangeEntries, Cache.rangeEntries,
    lruRangeEntries, lruRangeEntries, h]

/-- The recency touch of a scan does not change what later scans see. -/
theorem getItems_touch {cfg : CacheConfig} {s : CacheState} {a b : Key}
    {n : Name} {kd c now : Nat} {bl : Bool} :
    Cache.getItems cfg (lruRangeTouch Key.cmp s a b) n kd c now bl =
      Cache.getItems cfg s n kd c now bl :=
  getItems_eq_of_map_eq rfl n kd c now bl

theorem foldl_authorities_append (rrs : List ResourceRecord) : ∀ (r : Packet),
    (rrs.map Item.Positive).foldl
      (fun r item =>
        match item with
        | .Negative _ _ => r
        | .Positive rr => { r with authorities := r.authorities ++ [rr] })
      r = { r with authorities := r.authorities ++ rrs } := by
  induction rrs with
  | nil =>
    intro r
    simp
  | cons hd t ih =>
    intro r
    simp only [List.map_cons, List.foldl_cons]
    rw [ih]
    simp

/-- Whether `Forward::lookup_cache` produced a response (`hit1`/`hit2` of
`applyEvents`): the call did not panic and returned `Some`. -/
def lookupCacheHit (cfg : CacheConfig) (s : CacheState) (query : Packet) (now : Nat) : Bool :=
  match lookupCache cfg s query now with
  | some (some _, _) => true
  | _ => false

/-- **C10.** For an A/AAAA query with no cached items at the question, no
CNAME at the query name, and cached SOA records at the query name's
parent, `lookup_cache` returns `Some` response — NO_ERROR, empty answers,
the SOA records appended to authorities — instead of a cache miss, and
`Forward::apply` therefore answers from cache and never reaches
`upstream_pool.lookup`. -/
theorem forward_parent_soa_served_from_cache (cfg : CacheConfig) (s : CacheState)
    (query : Packet) (now : Nat) (rrs : List ResourceRecord)
    (hkind : query.question.kind = RRK_A ∨ query.question.kind = RRK_AAAA)
    (h1 : Cache.getItems cfg s query.question.name query.question.kind
      query.question.class_ now false = [])
    (h2 : Cache.getItems cfg s query.question.name RRK_CNAME
      query.question.class_ now false = [])
    (h3 : Cache.getItems cfg s (Name.parent query.question.name) RRK_SOA
      query.question.class_ now false = rrs.map .Positive)
    (hrrs : rrs ≠ []) :
    (∀ res, lookupCache cfg s query now = some res →
      res.1 = some { query.to_response with authorities := rrs }) ∧
    (lookupCache cfg s query now).isSome = true ∧
    lookupCacheHit cfg s query now = true ∧
    (∀ pending hit2 upSome : Bool,
      Ev.upstreamLookup ∉
        applyEvents true true (lookupCacheHit cfg s query now) pending hit2 upSome) := by
  have e1 : query.to_response.question = query.question := rfl
  have e2 : query.to_response.answers = ([] : List ResourceRecord) := rfl
  have hmain : ∃ sOut, lookupCache cfg s query now =
      some (some { query.to_response with authorities := rrs }, sOut) := by
    apply Exists.intro
    rw [lookupCache]
    rw [Cache.get, h1]
    simp only [List.foldl_nil]
    rw [lookupRelated]
    simp only [e1, e2]
    rw [if_neg (not_not_intro hkind)]
    rw [if_neg (by simp)]
    rw [relatedLoop]
    rw [if_neg (List.not_mem_nil _)]
    simp only [List.nil_append, Cache.get, getItems_touch, h2]
    simp only [Option.bind_eq_bind, Option.some_bind]
    rw [if_neg (by simp)]
    simp only [Option.pure_def, Option.bind_eq_bind, Option.some_bind]
    rw [if_neg (by simp)]
    rw [if_neg (by simp)]
    simp only [Cache.get, getItems_touch, e1, h3]
    rw [foldl_authorities_append]
    simp only [show query.to_response.authorities = ([] : List ResourceRecord) from rfl,
      List.nil_append]
    simp only [Option.some_bind]
    rw [if_neg (by simp [hrrs])]
    rfl
  obtain ⟨sOut, hmain⟩ := hmain
  have hhit : lookupCacheHit cfg s query now = true := by
    rw [lookupCacheHit, hmain]
  refine ⟨?_, ?_, hhit, ?_⟩
  · intro res hres
    rw [hmain] at hres
    cases hres
    rfl
  · rw [hmain]
    rfl
  · intro pending hit2 upSome
    rw [hhit]
    show Ev.upstreamLookup ∉ [Ev.lookupCacheStep, Ev.returnCached]
    decide

end Mudns

namespace Mudns

/-- An A query for `a.x` with recursion desired. -/
def queryAX : Packet :=
  { Packet.new 7 .Query OP_QUERY ⟨"a.x", RRK_A, RRC_IN⟩ with recursion_desired := true }

/-- The SOA record cached at `x`, the parent of `a.x`. -/
def rrSoaX : ResourceRecord :=
  ⟨"x", RRK_SOA, RRC_IN, 100, .Soa ⟨"ns.x", "host.x", 1, 2, 3, 4, 50⟩⟩

/-- A cache holding only the SOA entry at `x` (inserted at time 0). -/
def stateSoaX : CacheState :=
  ⟨[(⟨"x", RRK_SOA, RRC_IN, .Unique⟩,
     ⟨0, 100, 0, some (.Soa ⟨"ns.x", "host.x", 1, 2, 3, 4, 50⟩), none⟩)],
   [⟨"x", RRK_SOA, RRC_IN, .Unique⟩], 8⟩

theorem forward_parent_soa_served_from_cache_witness :
    (lookupCache cfgA stateSoaX queryAX 0).isSome = true ∧
    lookupCacheHit cfgA stateSoaX queryAX 0 = true ∧
    Ev.upstreamLookup ∉
      applyEvents true true (lookupCacheHit cfgA stateSoaX queryAX 0) true false true :=
  ⟨(forward_parent_soa_served_from_cache cfgA stateSoaX queryAX 0 [rrSoaX]
      (Or.inl rfl) (by decide) (by decide) (by decide) (by decide)).2.1,
   (forward_parent_soa_served_from_cache cfgA stateSoaX queryAX 0 [rrSoaX]
      (Or.inl rfl) (by decide) (by decide) (by decide) (by decide)).2.2.1,
   (forward_parent_soa_served_from_cache cfgA stateSoaX queryAX 0 [rrSoaX]
      (Or.inl rfl) (by decide) (by decide) (by decide) (by decide)).2.2.2 true false true⟩

end Mudns
